import Mathlib

/-!
Verification of the Zheus code-scaffolding service (TypeScript) against its
natural-language specification.

The embedding models file contents as lists of characters (`Chars`), mirroring
the JavaScript string primitives the services use (`String.prototype.includes`,
`indexOf`, `slice`, `split`, `trim`, `join`).  File-system and process effects
(`fs.existsSync`, `fs.readFileSync`, `fs.writeFileSync`, `child_process.exec`,
template loading) are modelled by explicit environment records whose fields give
the outcome of each primitive; a primitive that can throw is modelled with
`Except`/`Option`.  Each service method becomes a total Lean function from its
environment and arguments to its result record together with its observable
effects (written file contents, executed commands, response headers).
-/

abbrev Chars := List Char

/-! ### JavaScript string primitives -/

/-- `s.indexOf(pat)` — index of the first occurrence of `pat` in `s`,
`none` for JavaScript's `-1`. -/
def firstOccur (pat : Chars) : Chars → Option Nat
  | [] => if pat = [] then some 0 else none
  | a :: t => if pat <+: (a :: t) then some 0 else (firstOccur pat t).map (· + 1)

/-- Helper for `idxFrom`: index of the first occurrence of character `c`. -/
def idxFromAux (c : Char) : Chars → Option Nat
  | [] => none
  | a :: t => if a = c then some 0 else (idxFromAux c t).map (· + 1)

/-- `s.indexOf(c, i)` — first occurrence of character `c` at or after index
`i`, `none` for JavaScript's `-1`. -/
def idxFrom (c : Char) (s : Chars) (i : Nat) : Option Nat :=
  (idxFromAux c (s.drop i)).map (i + ·)

/-- `s.slice(0, j) + ins + s.slice(j)` — splice `ins` into `s` at index `j`. -/
def insertAt (s : Chars) (j : Nat) (ins : Chars) : Chars :=
  s.take j ++ ins ++ s.drop j

/-- JavaScript whitespace test (the characters relevant to this code base). -/
def isWsChar (c : Char) : Bool :=
  c = ' ' || c = '\n' || c = '\t' || c = '\r'

/-- `s.trim()` — strip leading and trailing whitespace. -/
def jsTrim (s : Chars) : Chars :=
  ((s.dropWhile isWsChar).reverse.dropWhile isWsChar).reverse

/-- `s.split('\n')`. -/
def splitNl (s : Chars) : List Chars := s.splitOn '\n'

/-- `lines.join('\n')`. -/
def joinNl (ls : List Chars) : Chars := List.intercalate ['\n'] ls

/-- `lines.toString()` — JavaScript `Array.prototype.toString` joins with `,`. -/
def joinComma (ls : List Chars) : Chars := List.intercalate [','] ls

/-! ### IoCService: registration lines and markers
(src/services/iocService.ts) -/

/-- `services.AddScoped<I${e}Repository, ${e}Repository>();` -/
def repoReg (e : Chars) : Chars :=
  "services.AddScoped<I".toList ++ e ++ "Repository, ".toList ++ e ++ "Repository>();".toList

/-- `services.AddTransient<${e}Handler>();` -/
def handlerReg (e : Chars) : Chars :=
  "services.AddTransient<".toList ++ e ++ "Handler>();".toList

def regionRepos : Chars := "#region Repositories".toList

def regionHandlers : Chars := "#region Handlers".toList

/-- The fixed indentation used by `addMultipleEntityRegistrations`. -/
def indent12 : Chars := "            ".toList

/-- `content.indexOf('\n', i) + 1`: in JavaScript a missing newline gives
`-1 + 1 = 0`, so the insertion then lands at the start of the content. -/
def nextLinePos (s : Chars) (i : Nat) : Nat :=
  match idxFrom '\n' s i with
  | some k => k + 1
  | none => 0

/-- One insertion of `addMultipleEntityRegistrations` (iocService.ts lines
160-183): if the marker occurs, splice `indentation + registration + '\n'`
just after the first newline following the marker's first occurrence. -/
def insertReg (c : Chars) (marker reg : Chars) : Chars :=
  match firstOccur marker c with
  | none => c
  | some i => insertAt c (nextLinePos c i) (indent12 ++ reg ++ ['\n'])

/-- The repository half of one loop iteration of
`addMultipleEntityRegistrations`: skip when the registration already occurs. -/
def repoStep (c : Chars) (e : Chars) : Chars :=
  if repoReg e <:+: c then c else insertReg c regionRepos (repoReg e)

/-- The handler half of one loop iteration of
`addMultipleEntityRegistrations`. -/
def handlerStep (c : Chars) (e : Chars) : Chars :=
  if handlerReg e <:+: c then c else insertReg c regionHandlers (handlerReg e)

/-- One full loop iteration of `addMultipleEntityRegistrations`: the
repository registration is attempted first, then the handler registration. -/
def iocStep (c : Chars) (e : Chars) : Chars :=
  handlerStep (repoStep c e) e

/-- Content transformation of `IoCService.addMultipleEntityRegistrations`
(iocService.ts lines 151-187): for each entity name, add the repository
registration and then the handler registration. -/
def addMultiRegsContent (c : Chars) (names : List Chars) : Chars :=
  names.foldl iocStep c

/-- `IoCService.isEntityRegistered` (iocService.ts lines 208-226) on a given
file content: both `I${e}Repository` and `${e}Handler` occur. -/
def isEntityRegisteredContent (c : Chars) (e : Chars) : Bool :=
  decide (("I".toList ++ e ++ "Repository".toList) <:+: c) &&
  decide ((e ++ "Handler".toList) <:+: c)

/-! ### InfrastructureService: DbSet lines
(src/services/infrastructureService.ts) -/

/-- `        public DbSet<${e}Entity> ${e} { get; set; }` -/
def dbSetLine (e : Chars) : Chars :=
  "        public DbSet<".toList ++ e ++ "Entity> ".toList ++ e ++
    " \x7b get; set; \x7d".toList

def regionDbSet : Chars := "#region DbSet".toList

/-- The line-insertion loop of `addMultipleEntitiesToDbContext`
(infrastructureService.ts lines 440-450): push the DbSet line after the first
line containing `#region DbSet`; the `entityAdded` flag stops repeats. -/
def insertLineAfterMarker (nl : Chars) : List Chars → List Chars
  | [] => []
  | l :: rest =>
    if regionDbSet <:+: l then l :: nl :: rest
    else l :: insertLineAfterMarker nl rest

/-- One loop iteration of `addMultipleEntitiesToDbContext` (lines 427-454):
skip when the trimmed DbSet line already occurs, otherwise split into lines,
insert after the first marker line, and re-join. -/
def addDbSetStep (c : Chars) (e : Chars) : Chars :=
  if jsTrim (dbSetLine e) <:+: c then c
  else joinNl (insertLineAfterMarker (dbSetLine e) (splitNl c))

/-- Content transformation of
`InfrastructureService.addMultipleEntitiesToDbContext`
(infrastructureService.ts lines 408-485). -/
def addMultiDbContent (c : Chars) (names : List Chars) : Chars :=
  names.foldl addDbSetStep c

/-! ### Facts about the string primitives -/

theorem firstOccur_eq_none {pat s : Chars} : firstOccur pat s = none ↔ ¬ pat <:+: s := by
  induction s with
  | nil =>
    by_cases hp : pat = [] <;> simp [firstOccur, hp, List.infix_nil]
  | cons a t ih =>
    by_cases hp : pat <+: a :: t <;>
      simp [firstOccur, hp, List.infix_cons_iff, Option.map_eq_none', ih]

theorem idxFromAux_some {c : Char} {l : Chars} {k : Nat}
    (h : idxFromAux c l = some k) : getElem? l k = some c := by
  induction l generalizing k with
  | nil => simp [idxFromAux] at h
  | cons a t ih =>
    by_cases hac : a = c
    · simp only [idxFromAux, if_pos hac, Option.some.injEq] at h
      subst hac
      simp [← h]
    · simp only [idxFromAux, if_neg hac, Option.map_eq_some'] at h
      obtain ⟨m, hm, rfl⟩ := h
      simpa using ih hm

theorem idxFrom_some {c : Char} {s : Chars} {i k : Nat}
    (h : idxFrom c s i = some k) : getElem? s k = some c := by
  simp only [idxFrom, Option.map_eq_some'] at h
  obtain ⟨m, hm, rfl⟩ := h
  have := idxFromAux_some hm
  rwa [List.getElem?_drop] at this

theorem nextLinePos_bdry (s : Chars) (i : Nat) :
    nextLinePos s i = 0 ∨ getElem? s (nextLinePos s i - 1) = some '\n' := by
  unfold nextLinePos
  cases h : idxFrom '\n' s i with
  | none => exact Or.inl rfl
  | some k => exact Or.inr (by simpa using idxFrom_some h)

/-- Decomposition of an occurrence of `pat` inside `x ++ y`: it lies in `x`,
lies in `y`, or straddles the seam as a nonempty suffix of `x` glued to a
nonempty prefix of `y`. -/
theorem infix_append_cases {pat x y : Chars} (h : pat <:+: x ++ y) :
    pat <:+: x ∨ pat <:+: y ∨
      ∃ p q, pat = p ++ q ∧ p ≠ [] ∧ q ≠ [] ∧ p <:+ x ∧ q <+: y := by
  obtain ⟨u, v, huv⟩ := h
  rw [List.append_assoc] at huv
  rcases List.append_eq_append_iff.mp huv with ⟨w, hx, hw⟩ | ⟨w, _, hy⟩
  · rcases List.append_eq_append_iff.mp hw with ⟨z, hwz, _⟩ | ⟨z, hpz, hyz⟩
    · exact Or.inl ⟨u, z, by rw [hx, hwz, List.append_assoc]⟩
    · by_cases hw0 : w = []
      · subst hw0
        have hpz2 : pat = z := by simpa using hpz
        subst hpz2
        exact Or.inr (Or.inl (List.IsPrefix.isInfix ⟨v, hyz.symm⟩))
      · by_cases hz0 : z = []
        · subst hz0
          have hpw : pat = w := by simpa using hpz
          exact Or.inl (List.IsSuffix.isInfix ⟨u, by rw [hpw, hx]⟩)
        · exact Or.inr (Or.inr ⟨w, z, hpz, hw0, hz0, ⟨u, hx.symm⟩, ⟨v, hyz.symm⟩⟩)
  · exact Or.inr (Or.inl ⟨w, v, by rw [hy, List.append_assoc]⟩)

/-- A nonempty prefix of a list starting with two spaces consists of spaces in
its first two positions. -/
theorem take_two_spaces {q z : Chars} (hq : q ≠ []) (hqz : q <+: z)
    (hz : z.take 2 = [' ', ' ']) :
    ((q.take 2).all (fun ch => ch == ' ')) = true := by
  obtain ⟨r, rfl⟩ := hqz
  cases q with
  | nil => exact absurd rfl hq
  | cons a q1 =>
    simp only [List.cons_append, List.take_succ_cons] at hz
    injection hz with ha htl
    cases q1 with
    | nil => simp [ha]
    | cons b q2 =>
      simp only [List.cons_append, List.take_succ_cons, List.take_zero] at htl
      injection htl with hb2 _
      simp [ha, hb2]

theorem take_two_append {z w : Chars} (hz : z.take 2 = [' ', ' ']) :
    (z ++ w).take 2 = [' ', ' '] := by
  cases z with
  | nil => simp at hz
  | cons a z1 =>
    cases z1 with
    | nil => simp at hz
    | cons b z2 =>
      simp only [List.take_succ_cons, List.take_zero] at hz ⊢
      simpa using hz

/-- Splicing text in at the start of a line (position `0`, or just after a
newline) cannot destroy an occurrence of a newline-free pattern. -/
theorem insertAt_preserves {pat c : Chars} (j : Nat) (ins : Chars)
    (hnl : '\n' ∉ pat) (hb : j = 0 ∨ getElem? c (j - 1) = some '\n') (h : pat <:+: c) :
    pat <:+: insertAt c j ins := by
  unfold insertAt
  rw [List.append_assoc]
  have hpat : pat <:+: c.take j ++ c.drop j := by rw [List.take_append_drop]; exact h
  rcases infix_append_cases hpat with h1 | h1 | ⟨p, q, hpq, hp0, _, hps, _⟩
  · exact h1.trans (List.prefix_append _ _).isInfix
  · exact h1.trans ((List.suffix_append ins _).trans (List.suffix_append _ _)).isInfix
  · exfalso
    obtain ⟨u, hu⟩ := hps
    obtain ⟨x, hx⟩ := Option.ne_none_iff_exists'.mp
      (show p.getLast? ≠ none by simpa [List.getLast?_eq_none_iff] using hp0)
    have hlast : (c.take j).getLast? = some x := by
      rw [← hu, List.getLast?_append, hx]; rfl
    have hxnl : x = '\n' := by
      rcases Nat.eq_zero_or_pos j with rfl | hjpos
      · simp at hlast
      · rcases hb with hb0 | hb
        · omega
        · have hjl : j - 1 < j := Nat.sub_lt hjpos one_pos
          have hjlen : j - 1 < c.length := (List.getElem?_eq_some_iff.mp hb).1
          have hlen : (c.take j).length = j := by
            rw [List.length_take]
            exact Nat.min_eq_left (by omega)
          rw [List.getLast?_eq_getElem?, hlen, List.getElem?_take_of_lt hjl, hb] at hlast
          exact (Option.some_inj.mp hlast).symm
    refine hnl ?_
    rw [hpq]
    exact List.mem_append_left q (hxnl ▸ List.mem_of_getLast?_eq_some hx)

/-- No new occurrence of a region marker can be created by splicing in a
`#`-free registration line that ends in a newline and starts with two
spaces. -/
theorem insertAt_reflect {marker c : Chars} (j : Nat) (ins : Chars)
    (hnl : '\n' ∉ marker) (hhash : '#' ∈ marker) (hhi : '#' ∉ ins)
    (hlast : ins.getLast? = some '\n') (hins2 : ins.take 2 = [' ', ' '])
    (hsp : ∀ i, i < marker.length → 0 < i →
      ¬ (((marker.drop i).take 2).all (fun ch => ch == ' ') = true))
    (h : marker <:+: insertAt c j ins) : marker <:+: c := by
  unfold insertAt at h
  rw [List.append_assoc] at h
  have hsplit : c.take j ++ c.drop j = c := List.take_append_drop j c
  rcases infix_append_cases h with h1 | h1 | ⟨p, q, hpq, hp0, hq0, hps, hqp⟩
  · exact h1.trans ( List.take_prefix j c).isInfix
  · rcases infix_append_cases h1 with h2 | h2 | ⟨p, q, hpq, hp0, hq0, hps, hqp⟩
    · exact absurd (h2.subset hhash) hhi
    · exact h2.trans ( List.drop_suffix j c).isInfix
    · exfalso
      obtain ⟨u, hu⟩ := hps
      obtain ⟨x, hx⟩ := Option.ne_none_iff_exists'.mp
        (show p.getLast? ≠ none by simpa [List.getLast?_eq_none_iff] using hp0)
      have hins : ins.getLast? = some x := by
        rw [← hu, List.getLast?_append, hx]; rfl
      rw [hins] at hlast
      refine hnl ?_
      rw [hpq]
      exact List.mem_append_left q (Option.some_inj.mp hlast ▸ List.mem_of_getLast?_eq_some hx)
  · exfalso
    have hq : q = marker.drop p.length := by rw [hpq]; simp
    have hplen : 0 < p.length := List.length_pos.mpr hp0
    have hlen : p.length < marker.length := by
      have h2 : marker.length = p.length + q.length := by rw [hpq]; simp
      have h3 : 0 < q.length := List.length_pos.mpr hq0
      omega
    have hall : ((q.take 2).all (fun ch => ch == ' ')) = true :=
      take_two_spaces hq0 hqp (take_two_append hins2)
    exact hsp p.length hlen hplen (hq ▸ hall)

/-! ### Character-level facts about the registration lines and markers -/

theorem no_hash_repoReg {e : Chars} (he : '#' ∉ e) : '#' ∉ repoReg e := by
  simp only [repoReg, List.mem_append, not_or]
  exact ⟨⟨⟨⟨by decide, he⟩, by decide⟩, he⟩, by decide⟩

theorem no_hash_handlerReg {e : Chars} (he : '#' ∉ e) : '#' ∉ handlerReg e := by
  simp only [handlerReg, List.mem_append, not_or]
  exact ⟨⟨by decide, he⟩, by decide⟩

theorem no_nl_repoReg {e : Chars} (he : '\n' ∉ e) : '\n' ∉ repoReg e := by
  simp only [repoReg, List.mem_append, not_or]
  exact ⟨⟨⟨⟨by decide, he⟩, by decide⟩, he⟩, by decide⟩

theorem no_nl_handlerReg {e : Chars} (he : '\n' ∉ e) : '\n' ∉ handlerReg e := by
  simp only [handlerReg, List.mem_append, not_or]
  exact ⟨⟨by decide, he⟩, by decide⟩

theorem no_hash_ins {reg : Chars} (h : '#' ∉ reg) : '#' ∉ indent12 ++ reg ++ ['\n'] := by
  simp only [List.mem_append, not_or]
  exact ⟨⟨by decide, h⟩, by decide⟩

theorem ins_getLast (reg : Chars) : (indent12 ++ reg ++ ['\n']).getLast? = some '\n' :=
  List.getLast?_concat _

theorem ins_take2 (reg : Chars) : (indent12 ++ reg ++ ['\n']).take 2 = [' ', ' '] :=
  take_two_append (take_two_append (by decide))

theorem space_fact_repos : ∀ i, i < regionRepos.length → 0 < i →
    ¬ (((regionRepos.drop i).take 2).all (fun ch => ch == ' ') = true) := by decide

theorem space_fact_handlers : ∀ i, i < regionHandlers.length → 0 < i →
    ¬ (((regionHandlers.drop i).take 2).all (fun ch => ch == ' ') = true) := by decide

/-! ### Step lemmas for `addMultipleEntityRegistrations` -/

theorem insertReg_of_not_found {c marker reg : Chars} (h : ¬ marker <:+: c) :
    insertReg c marker reg = c := by
  unfold insertReg
  rw [firstOccur_eq_none.mpr h]

theorem insertReg_preserves {pat c marker reg : Chars} (hnl : '\n' ∉ pat)
    (h : pat <:+: c) : pat <:+: insertReg c marker reg := by
  unfold insertReg
  cases hf : firstOccur marker c with
  | none => exact h
  | some i => exact insertAt_preserves _ _ hnl (nextLinePos_bdry c i) h

theorem insertReg_reflect {c marker0 reg marker : Chars}
    (hm : marker = regionRepos ∨ marker = regionHandlers) (hreg : '#' ∉ reg)
    (h : marker <:+: insertReg c marker0 reg) : marker <:+: c := by
  unfold insertReg at h
  cases hf : firstOccur marker0 c with
  | none => rwa [hf] at h
  | some i =>
    rw [hf] at h
    refine insertAt_reflect _ _ ?_ ?_ (no_hash_ins hreg) (ins_getLast reg) (ins_take2 reg) ?_ h
    · rcases hm with rfl | rfl <;> decide
    · rcases hm with rfl | rfl <;> decide
    · rcases hm with rfl | rfl
      · exact space_fact_repos
      · exact space_fact_handlers

theorem repoStep_skip {c e : Chars} (h : repoReg e <:+: c ∨ ¬ regionRepos <:+: c) :
    repoStep c e = c := by
  unfold repoStep
  rcases h with h | h
  · rw [if_pos h]
  · by_cases h2 : repoReg e <:+: c
    · rw [if_pos h2]
    · rw [if_neg h2, insertReg_of_not_found h]

theorem handlerStep_skip {c e : Chars} (h : handlerReg e <:+: c ∨ ¬ regionHandlers <:+: c) :
    handlerStep c e = c := by
  unfold handlerStep
  rcases h with h | h
  · rw [if_pos h]
  · by_cases h2 : handlerReg e <:+: c
    · rw [if_pos h2]
    · rw [if_neg h2, insertReg_of_not_found h]

theorem repoStep_preserves {pat c e : Chars} (hnl : '\n' ∉ pat) (h : pat <:+: c) :
    pat <:+: repoStep c e := by
  unfold repoStep
  split
  · exact h
  · exact insertReg_preserves hnl h

theorem handlerStep_preserves {pat c e : Chars} (hnl : '\n' ∉ pat) (h : pat <:+: c) :
    pat <:+: handlerStep c e := by
  unfold handlerStep
  split
  · exact h
  · exact insertReg_preserves hnl h

theorem repoStep_reflect {c e marker : Chars}
    (hm : marker = regionRepos ∨ marker = regionHandlers) (he : '#' ∉ e)
    (h : marker <:+: repoStep c e) : marker <:+: c := by
  unfold repoStep at h
  split at h
  · exact h
  · exact insertReg_reflect hm (no_hash_repoReg he) h

theorem handlerStep_reflect {c e marker : Chars}
    (hm : marker = regionRepos ∨ marker = regionHandlers) (he : '#' ∉ e)
    (h : marker <:+: handlerStep c e) : marker <:+: c := by
  unfold handlerStep at h
  split at h
  · exact h
  · exact insertReg_reflect hm (no_hash_handlerReg he) h

theorem repoStep_done (c e : Chars) :
    repoReg e <:+: repoStep c e ∨ ¬ regionRepos <:+: repoStep c e := by
  unfold repoStep
  by_cases h : repoReg e <:+: c
  · rw [if_pos h]; exact Or.inl h
  · rw [if_neg h]
    unfold insertReg
    cases hf : firstOccur regionRepos c with
    | none => exact Or.inr (firstOccur_eq_none.mp hf)
    | some i =>
      refine Or.inl ?_
      unfold insertAt
      exact ⟨c.take (nextLinePos c i) ++ indent12, ['\n'] ++ c.drop (nextLinePos c i),
        by simp only [List.append_assoc]⟩

theorem handlerStep_done (c e : Chars) :
    handlerReg e <:+: handlerStep c e ∨ ¬ regionHandlers <:+: handlerStep c e := by
  unfold handlerStep
  by_cases h : handlerReg e <:+: c
  · rw [if_pos h]; exact Or.inl h
  · rw [if_neg h]
    unfold insertReg
    cases hf : firstOccur regionHandlers c with
    | none => exact Or.inr (firstOccur_eq_none.mp hf)
    | some i =>
      refine Or.inl ?_
      unfold insertAt
      exact ⟨c.take (nextLinePos c i) ++ indent12, ['\n'] ++ c.drop (nextLinePos c i),
        by simp only [List.append_assoc]⟩

/-- A registration-safe entity name: free of newlines and of the `#` that
introduces region markers.  C# identifiers satisfy this. -/
def NiceName (e : Chars) : Prop := '\n' ∉ e ∧ '#' ∉ e

instance (e : Chars) : Decidable (NiceName e) := by
  unfold NiceName
  infer_instance

/-- After processing `e`, either the registration occurs or the corresponding
marker is absent — for both halves of the step. -/
def RegsDone (e c : Chars) : Prop :=
  (repoReg e <:+: c ∨ ¬ regionRepos <:+: c) ∧
  (handlerReg e <:+: c ∨ ¬ regionHandlers <:+: c)

theorem iocStep_done {e : Chars} (hnlE : '\n' ∉ e) (hhE : '#' ∉ e) (c : Chars) :
    RegsDone e (iocStep c e) := by
  constructor
  · rcases repoStep_done c e with h | h
    · exact Or.inl (handlerStep_preserves (no_nl_repoReg hnlE) h)
    · exact Or.inr fun hcon => h (handlerStep_reflect (Or.inl rfl) hhE hcon)
  · exact handlerStep_done (repoStep c e) e

theorem iocStep_mono {e x c : Chars} (hnlE : '\n' ∉ e) (hhX : '#' ∉ x)
    (hd : RegsDone e c) : RegsDone e (iocStep c x) := by
  obtain ⟨h1, h2⟩ := hd
  constructor
  · rcases h1 with h | h
    · exact Or.inl (handlerStep_preserves (no_nl_repoReg hnlE)
        (repoStep_preserves (no_nl_repoReg hnlE) h))
    · exact Or.inr fun hcon =>
        h (repoStep_reflect (Or.inl rfl) hhX (handlerStep_reflect (Or.inl rfl) hhX hcon))
  · rcases h2 with h | h
    · exact Or.inl (handlerStep_preserves (no_nl_handlerReg hnlE)
        (repoStep_preserves (no_nl_handlerReg hnlE) h))
    · exact Or.inr fun hcon =>
        h (repoStep_reflect (Or.inr rfl) hhX (handlerStep_reflect (Or.inr rfl) hhX hcon))

theorem iocStep_skip {e c : Chars} (hd : RegsDone e c) : iocStep c e = c := by
  unfold iocStep
  rw [repoStep_skip hd.1, handlerStep_skip hd.2]

theorem fold_regsDone_mono {names : List Chars} (hall : ∀ x ∈ names, NiceName x)
    {e c : Chars} (hnlE : '\n' ∉ e) (hd : RegsDone e c) :
    RegsDone e (names.foldl iocStep c) := by
  induction names generalizing c with
  | nil => exact hd
  | cons x t ih =>
    rw [List.foldl_cons]
    exact ih (fun y hy => hall y (List.mem_cons_of_mem x hy))
      (iocStep_mono hnlE (hall x (List.mem_cons_self x t)).2 hd)

theorem fold_regsDone {names : List Chars} (hall : ∀ x ∈ names, NiceName x) (c : Chars) :
    ∀ e ∈ names, RegsDone e (names.foldl iocStep c) := by
  induction names generalizing c with
  | nil => intro e he; cases he
  | cons x t ih =>
    intro e he
    rw [List.foldl_cons]
    rcases List.mem_cons.mp he with rfl | he2
    · have hx := hall e (List.mem_cons_self e t)
      exact fold_regsDone_mono (fun y hy => hall y (List.mem_cons_of_mem e hy)) hx.1
        (iocStep_done hx.1 hx.2 c)
    · exact ih (fun y hy => hall y (List.mem_cons_of_mem x hy)) (iocStep c x) e he2

theorem fold_regs_skip {names : List Chars} {c : Chars}
    (hd : ∀ e ∈ names, RegsDone e c) : names.foldl iocStep c = c := by
  induction names with
  | nil => rfl
  | cons x t ih =>
    rw [List.foldl_cons, iocStep_skip (hd x (List.mem_cons_self x t))]
    exact ih fun e he => hd e (List.mem_cons_of_mem x he)

theorem addMultiRegs_idem {c : Chars} {names : List Chars}
    (hall : ∀ x ∈ names, NiceName x) :
    addMultiRegsContent (addMultiRegsContent c names) names = addMultiRegsContent c names := by
  unfold addMultiRegsContent
  exact fold_regs_skip (fold_regsDone hall c)

/-! ### Line-level facts for the DbContext insertion -/

theorem no_nl_dbSetLine {e : Chars} (he : '\n' ∉ e) : '\n' ∉ dbSetLine e := by
  simp only [dbSetLine, List.mem_append, not_or]
  exact ⟨⟨⟨⟨by decide, he⟩, by decide⟩, he⟩, by decide⟩

theorem joinNl_splitNl (c : Chars) : joinNl (splitNl c) = c := by
  simpa [joinNl, splitNl] using List.intercalate_splitOn c '\n'

theorem splitNl_ne_nil (c : Chars) : splitNl c ≠ [] := by
  simpa [splitNl, List.splitOn] using List.splitOnP_ne_nil (fun a => a == '\n') c

theorem joinNl_cons2 (a b : Chars) (t : List Chars) :
    joinNl (a :: b :: t) = a ++ '\n' :: joinNl (b :: t) := by
  simp [joinNl, List.intercalate]

theorem mem_infix_joinNl {l : Chars} {ls : List Chars} (h : l ∈ ls) :
    l <:+: joinNl ls := by
  induction ls with
  | nil => cases h
  | cons a t ih =>
    rcases List.mem_cons.mp h with rfl | h2
    · cases t with
      | nil => simp [joinNl, List.intercalate]
      | cons b t2 =>
        rw [joinNl_cons2]
        exact (List.prefix_append l ('\n' :: joinNl (b :: t2))).isInfix
    · have hne : t ≠ [] := List.ne_nil_of_mem h2
      obtain ⟨b, t2, rfl⟩ := List.exists_cons_of_ne_nil hne
      rw [joinNl_cons2]
      refine (ih h2).trans (List.IsSuffix.isInfix ?_)
      exact ⟨a ++ ['\n'], by simp⟩

theorem infix_singleton_nl {pat : Chars} (hnl : '\n' ∉ pat)
    (h : pat <:+: ['\n']) : pat = [] := by
  cases pat with
  | nil => rfl
  | cons c cs =>
    exfalso
    have : c ∈ (['\n'] : Chars) := h.subset (List.mem_cons_self c cs)
    simp at this
    exact hnl (this ▸ List.mem_cons_self c cs)

theorem infix_joinNl_exists {pat : Chars} {ls : List Chars} (hnl : '\n' ∉ pat)
    (hls : ls ≠ []) (h : pat <:+: joinNl ls) : ∃ l ∈ ls, pat <:+: l := by
  induction ls with
  | nil => exact absurd rfl hls
  | cons a t ih =>
    cases t with
    | nil =>
      refine ⟨a, List.mem_cons_self a [], ?_⟩
      simpa [joinNl, List.intercalate] using h
    | cons b t2 =>
      rw [joinNl_cons2] at h
      rcases infix_append_cases h with h1 | h1 | ⟨p, q, hpq, hp0, hq0, hps, hqp⟩
      · exact ⟨a, List.mem_cons_self a _, h1⟩
      · have h2 : pat <:+: ['\n'] ++ joinNl (b :: t2) := h1
        rcases infix_append_cases h2 with h3 | h3 | ⟨p, q, hpq, hp0, hq0, hps, hqp⟩
        · refine ⟨a, List.mem_cons_self a _, ?_⟩
          rw [infix_singleton_nl hnl h3]
          exact List.nil_infix
        · obtain ⟨l, hl, hinf⟩ := ih (by simp) h3
          exact ⟨l, List.mem_cons_of_mem a hl, hinf⟩
        · exfalso
          obtain ⟨u, hu⟩ := hps
          have hpn : p = ['\n'] := by
            cases u with
            | nil => simpa using hu
            | cons x xs =>
              exfalso
              rw [List.cons_append] at hu
              injection hu with h1 h2
              exact hp0 (List.append_eq_nil.mp h2).2
          refine hnl ?_
          rw [hpq, hpn]
          exact List.mem_append_left q (List.mem_cons_self '\n' [])
      · exfalso
        cases q with
        | nil => exact hq0 rfl
        | cons x xs =>
          have hx : x = '\n' := (List.cons_prefix_cons.mp hqp).1
          refine hnl ?_
          rw [hpq]
          refine List.mem_append_right p ?_
          rw [hx]
          exact List.mem_cons_self '\n' xs

theorem ilam_no_marker {nl : Chars} {ls : List Chars}
    (h : ∀ l ∈ ls, ¬ regionDbSet <:+: l) : insertLineAfterMarker nl ls = ls := by
  induction ls with
  | nil => rfl
  | cons a t ih =>
    unfold insertLineAfterMarker
    rw [if_neg (h a (List.mem_cons_self a t))]
    rw [ih fun l hl => h l (List.mem_cons_of_mem a hl)]

theorem ilam_mem {x nl : Chars} {ls : List Chars} (h : x ∈ ls) :
    x ∈ insertLineAfterMarker nl ls := by
  induction ls with
  | nil => cases h
  | cons a t ih =>
    unfold insertLineAfterMarker
    split
    · rcases List.mem_cons.mp h with rfl | h2
      · exact List.mem_cons_self x _
      · exact List.mem_cons_of_mem a (List.mem_cons_of_mem nl h2)
    · rcases List.mem_cons.mp h with rfl | h2
      · exact List.mem_cons_self x _
      · exact List.mem_cons_of_mem a (ih h2)

theorem ilam_self_mem {nl : Chars} {ls : List Chars}
    (h : ∃ l ∈ ls, regionDbSet <:+: l) : nl ∈ insertLineAfterMarker nl ls := by
  induction ls with
  | nil => simp at h
  | cons a t ih =>
    unfold insertLineAfterMarker
    split
    · exact List.mem_cons_of_mem a (List.mem_cons_self nl t)
    · obtain ⟨l, hl, hinf⟩ := h
      rcases List.mem_cons.mp hl with rfl | h2
      · simp_all
      · exact List.mem_cons_of_mem a (ih ⟨l, h2, hinf⟩)

theorem jsTrim_within (s : Chars) : jsTrim s <:+: s := by
  unfold jsTrim
  have h1 : s.dropWhile isWsChar <:+ s := List.dropWhile_suffix _
  have h2 : ((s.dropWhile isWsChar).reverse.dropWhile isWsChar).reverse <+:
      s.dropWhile isWsChar := by
    rw [← List.reverse_suffix]
    simpa using List.dropWhile_suffix (l := (s.dropWhile isWsChar).reverse) isWsChar
  exact h2.isInfix.trans h1.isInfix

/-! ### Idempotence machinery for the DbContext insertion -/

/-- After processing `e`, either the trimmed DbSet line occurs or no line
contains the `#region DbSet` marker. -/
def DbDone (e c : Chars) : Prop :=
  jsTrim (dbSetLine e) <:+: c ∨ ∀ l ∈ splitNl c, ¬ regionDbSet <:+: l

theorem addDbSetStep_no_marker {c x : Chars}
    (h : ∀ l ∈ splitNl c, ¬ regionDbSet <:+: l) : addDbSetStep c x = c := by
  unfold addDbSetStep
  split
  · rfl
  · rw [ilam_no_marker h, joinNl_splitNl]

theorem addDbSetStep_skip {e c : Chars} (hd : DbDone e c) : addDbSetStep c e = c := by
  rcases hd with h | h
  · unfold addDbSetStep
    rw [if_pos h]
  · exact addDbSetStep_no_marker h

theorem addDbSetStep_done (e c : Chars) : DbDone e (addDbSetStep c e) := by
  unfold addDbSetStep
  by_cases h : jsTrim (dbSetLine e) <:+: c
  · rw [if_pos h]
    exact Or.inl h
  · rw [if_neg h]
    by_cases hm : ∀ l ∈ splitNl c, ¬ regionDbSet <:+: l
    · rw [ilam_no_marker hm, joinNl_splitNl]
      exact Or.inr hm
    · push_neg at hm
      refine Or.inl ?_
      exact (jsTrim_within _).trans (mem_infix_joinNl (ilam_self_mem hm))

theorem addDbSetStep_mono {e x c : Chars} (hnlE : '\n' ∉ e) (hd : DbDone e c) :
    DbDone e (addDbSetStep c x) := by
  rcases hd with h | h
  · refine Or.inl ?_
    unfold addDbSetStep
    split
    · exact h
    · have hnlp : '\n' ∉ jsTrim (dbSetLine e) := fun hc =>
        (no_nl_dbSetLine hnlE) ((jsTrim_within _).subset hc)
      obtain ⟨l, hl, hinf⟩ := infix_joinNl_exists hnlp (splitNl_ne_nil c)
        (by rw [joinNl_splitNl]; exact h)
      exact hinf.trans (mem_infix_joinNl (ilam_mem hl))
  · rw [addDbSetStep_no_marker h]
    exact Or.inr h

theorem fold_dbDone_mono {names : List Chars} {e c : Chars} (hnlE : '\n' ∉ e)
    (hd : DbDone e c) : DbDone e (names.foldl addDbSetStep c) := by
  induction names generalizing c with
  | nil => exact hd
  | cons x t ih =>
    rw [List.foldl_cons]
    exact ih (addDbSetStep_mono hnlE hd)

theorem fold_dbDone {names : List Chars} (hall : ∀ x ∈ names, '\n' ∉ x) (c : Chars) :
    ∀ e ∈ names, DbDone e (names.foldl addDbSetStep c) := by
  induction names generalizing c with
  | nil => intro e he; cases he
  | cons x t ih =>
    intro e he
    rw [List.foldl_cons]
    rcases List.mem_cons.mp he with rfl | he2
    · exact fold_dbDone_mono (hall e (List.mem_cons_self e t)) (addDbSetStep_done e c)
    · exact ih (fun y hy => hall y (List.mem_cons_of_mem x hy)) (addDbSetStep c x) e he2

theorem fold_db_skip {names : List Chars} {c : Chars}
    (hd : ∀ e ∈ names, DbDone e c) : names.foldl addDbSetStep c = c := by
  induction names with
  | nil => rfl
  | cons x t ih =>
    rw [List.foldl_cons, addDbSetStep_skip (hd x (List.mem_cons_self x t))]
    exact ih fun e he => hd e (List.mem_cons_of_mem x he)

theorem addMultiDb_idem {c : Chars} {names : List Chars}
    (hall : ∀ x ∈ names, '\n' ∉ x) :
    addMultiDbContent (addMultiDbContent c names) names = addMultiDbContent c names := by
  unfold addMultiDbContent
  exact fold_db_skip (fold_dbDone hall c)

/-! ### Helper: the substrings `isEntityRegistered` looks for occur inside the
registration lines. -/

theorem ier_infix_repoReg (e : Chars) :
    ("I".toList ++ e ++ "Repository".toList) <:+: repoReg e := by
  refine ⟨"services.AddScoped<".toList, ", ".toList ++ e ++ "Repository>();".toList, ?_⟩
  have h1 : "services.AddScoped<".toList ++ "I".toList = "services.AddScoped<I".toList := by decide
  have h2 : ("Repository".toList : Chars) ++ ", ".toList = "Repository, ".toList := by decide
  simp only [repoReg, ← h1, ← h2, List.append_assoc]

theorem eh_infix_handlerReg (e : Chars) :
    (e ++ "Handler".toList) <:+: handlerReg e := by
  refine ⟨"services.AddTransient<".toList, ">();".toList, ?_⟩
  have h2 : ("Handler".toList : Chars) ++ ">();".toList = "Handler>();".toList := by decide
  simp only [handlerReg, ← h2, List.append_assoc]

theorem no_nl_ier {e : Chars} (he : '\n' ∉ e) :
    '\n' ∉ "I".toList ++ e ++ "Repository".toList := by
  simp only [List.mem_append, not_or]
  exact ⟨⟨by decide, he⟩, by decide⟩

/-! ### Claim C1 -/

/-- Concrete inputs refuting idempotence of the IoC registration insertion for
arbitrary entity names: a name that itself contains the `#region Handlers`
marker followed by a newline. -/
def cexName : Chars := "#region Handlers\nX".toList

def cexContent : Chars := "#region Repositories\n".toList ++ repoReg cexName

set_option maxRecDepth 8000 in
/-- Claim C1, counterexample: `addMultipleEntityRegistrations` is **not**
idempotent for every file content and entity name — for the entity name
`"#region Handlers\nX"` and a bootstrapper content that already contains its
repository registration, a second application of the insertion changes the
file content again. -/
theorem C1_counterexample :
    addMultiRegsContent (addMultiRegsContent cexContent [cexName]) [cexName] ≠
      addMultiRegsContent cexContent [cexName] := by decide

/-- Claim C1 (amended): for entity names free of newlines and of the `#`
character — in particular all C# identifiers — the registration-line
insertions of `IoCService.addMultipleEntityRegistrations` and
`InfrastructureService.addMultipleEntitiesToDbContext` append a line after the
marker only when an equivalent line is absent, so applying the same insertion
a second time leaves the file content unchanged. -/
theorem C1_amended_idempotent (c : Chars) (names : List Chars)
    (hall : ∀ e ∈ names, NiceName e) :
    addMultiRegsContent (addMultiRegsContent c names) names =
        addMultiRegsContent c names ∧
    addMultiDbContent (addMultiDbContent c names) names =
        addMultiDbContent c names :=
  ⟨addMultiRegs_idem hall, addMultiDb_idem fun x hx => (hall x hx).1⟩

def sampleBootstrapper : Chars :=
  ("class X \x7b\n    #region Repositories\n    #endregion\n" ++
    "    #region Handlers\n    #endregion\n\x7d\n").toList

/-- Witness for the amended claim C1 at a concrete bootstrapper content and the
entity name `User`. -/
theorem C1_amended_witness :
    (∀ e ∈ (["User".toList] : List Chars), NiceName e) ∧
    (addMultiRegsContent (addMultiRegsContent sampleBootstrapper ["User".toList])
          ["User".toList] =
        addMultiRegsContent sampleBootstrapper ["User".toList] ∧
     addMultiDbContent (addMultiDbContent sampleBootstrapper ["User".toList])
          ["User".toList] =
        addMultiDbContent sampleBootstrapper ["User".toList]) :=
  ⟨by decide, C1_amended_idempotent sampleBootstrapper ["User".toList] (by decide)⟩

/-! ### Claim C10 -/

def cexContent10 : Chars :=
  "#region Repositories\n".toList ++ repoReg cexName ++ "\n#region Handlers".toList

set_option maxRecDepth 8000 in
/-- Claim C10, counterexample: a bootstrapper content containing both markers
on which `addMultipleEntityRegistrations` succeeds for the adversarial entity
name, yet `isEntityRegistered` returns `false` afterwards: the handler
insertion point falls inside the already-present repository registration and
splits it. -/
theorem C10_counterexample :
    (regionRepos <:+: cexContent10 ∧ regionHandlers <:+: cexContent10) ∧
    isEntityRegisteredContent (addMultiRegsContent cexContent10 [cexName]) cexName
      = false := by decide

/-- Claim C10 (amended): for every file content containing both the
`#region Repositories` and `#region Handlers` markers and every entity name
free of newlines, after `addMultipleEntityRegistrations` runs for that name,
`isEntityRegistered` returns `true` on the resulting content. -/
theorem C10_amended (c e : Chars) (hnl : '\n' ∉ e)
    (hr : regionRepos <:+: c) (hh : regionHandlers <:+: c) :
    isEntityRegisteredContent (addMultiRegsContent c [e]) e = true := by
  have hstep : addMultiRegsContent c [e] = handlerStep (repoStep c e) e := rfl
  have hrr : repoReg e <:+: repoStep c e := by
    rcases repoStep_done c e with h | h
    · exact h
    · exact absurd (repoStep_preserves (by decide) hr) h
  have hh1 : regionHandlers <:+: repoStep c e := repoStep_preserves (by decide) hh
  have hhr : handlerReg e <:+: handlerStep (repoStep c e) e := by
    rcases handlerStep_done (repoStep c e) e with h | h
    · exact h
    · exact absurd (handlerStep_preserves (by decide) hh1) h
  have hier : ("I".toList ++ e ++ "Repository".toList) <:+:
      handlerStep (repoStep c e) e :=
    handlerStep_preserves (no_nl_ier hnl) ((ier_infix_repoReg e).trans hrr)
  have heh : (e ++ "Handler".toList) <:+: handlerStep (repoStep c e) e :=
    (eh_infix_handlerReg e).trans hhr
  rw [hstep]
  unfold isEntityRegisteredContent
  rw [Bool.and_eq_true, decide_eq_true_eq, decide_eq_true_eq]
  exact ⟨hier, heh⟩

/-- Witness for the amended claim C10 at a concrete content and name. -/
theorem C10_amended_witness :
    ('\n' ∉ ("User".toList : Chars) ∧ regionRepos <:+: sampleBootstrapper ∧
      regionHandlers <:+: sampleBootstrapper) ∧
    isEntityRegisteredContent (addMultiRegsContent sampleBootstrapper ["User".toList])
      "User".toList = true :=
  ⟨by decide, C10_amended sampleBootstrapper "User".toList (by decide) (by decide) (by decide)⟩

/-! ### IoCService result-level model
(src/services/iocService.ts)

`fs` effects are supplied by `FileEnv`: `fileExists` is `fs.existsSync` on the
bootstrapper path, `readOutcome` the outcome of `fs.readFileSync` (an
exception carries its message), `writeOutcome content` the outcome of
`fs.writeFileSync` with the given content (`none` = success).  Result records
keep the `success` and `message` fields of the source's `IoCResult`; the
`filePath`/`registrations` fields carry no information the claims mention and
are omitted. -/

structure IoCResultM where
  success : Bool
  message : Chars
deriving DecidableEq

structure FileEnv where
  fileExists : Bool
  readOutcome : Except Chars Chars
  writeOutcome : Chars → Option Chars

/-- `line.match(/^\s*/)?.[0] || '            '`: the regular expression always
matches, but an empty match is falsy in JavaScript, so a line with no leading
whitespace falls back to the 12-space default. -/
def leadingWs (l : Chars) : Chars :=
  if l.takeWhile isWsChar = [] then indent12 else l.takeWhile isWsChar

/-- One loop iteration of `addEntityRegistrations` (iocService.ts lines
78-104): push the line, then after a `#region Repositories` line push the
repository registration if it does not occur in `lines.toString()` (the
comma-join of the original lines), then likewise for handlers. -/
def addEntityRegLine (orig : Chars) (e l : Chars) : List Chars :=
  [l] ++
  (if regionRepos <:+: l ∧ ¬ repoReg e <:+: orig then [leadingWs l ++ repoReg e] else []) ++
  (if regionHandlers <:+: l ∧ ¬ handlerReg e <:+: orig then [leadingWs l ++ handlerReg e] else [])

def addEntityRegsNewContent (lines : List Chars) (e : Chars) : List Chars :=
  (lines.map (addEntityRegLine (joinComma lines) e)).flatten

/-- The loop's `foundRegion` flag: some line contains one of the markers. -/
def foundRegionB (lines : List Chars) : Bool :=
  lines.any fun l => decide (regionRepos <:+: l) || decide (regionHandlers <:+: l)

def msgFileNotFound : Chars := "Arquivo NativeInjectorBootStrapper não encontrado".toList

def msgNoRegions : Chars := "Regiões #region não encontradas no arquivo".toList

def msgAddErrPre : Chars := "Erro ao adicionar registros IoC: ".toList

def msgAdded (e : Chars) : Chars :=
  "Registros IoC adicionados para entidade '".toList ++ e ++ "'".toList

/-- `IoCService.addEntityRegistrations` (iocService.ts lines 58-135).  Returns
the result record and the content written by `fs.writeFileSync` (`none` when
no write was performed). -/
def addEntityRegistrationsM (env : FileEnv) (e : Chars) : IoCResultM × Option Chars :=
  if env.fileExists = false then
    ({ success := false, message := msgFileNotFound }, none)
  else
    match env.readOutcome with
    | .error err => ({ success := false, message := msgAddErrPre ++ err }, none)
    | .ok content =>
      let lines := splitNl content
      let newContent := addEntityRegsNewContent lines e
      if foundRegionB lines = false then
        ({ success := false, message := msgNoRegions }, none)
      else
        match env.writeOutcome (joinNl newContent) with
        | some err => ({ success := false, message := msgAddErrPre ++ err }, none)
        | none => ({ success := true, message := msgAdded e }, some (joinNl newContent))

/-- `line.trim() === pattern` for the two registration patterns of
`removeEntityRegistrations`. -/
def removeMatch (e l : Chars) : Bool :=
  jsTrim l == repoReg e || jsTrim l == handlerReg e

def msgNoneRemoved (e : Chars) : Chars :=
  "Nenhum registro encontrado para entidade '".toList ++ e ++ "'".toList

def msgRemoveErrPre : Chars := "Erro ao remover registros IoC: ".toList

def msgRemoved (n : Nat) (e : Chars) : Chars :=
  (Nat.repr n).toList ++ " registro(s) removido(s) para entidade '".toList ++ e ++ "'".toList

/-- `IoCService.removeEntityRegistrations` (iocService.ts lines 264-326). -/
def removeEntityRegistrationsM (env : FileEnv) (e : Chars) : IoCResultM × Option Chars :=
  if env.fileExists = false then
    ({ success := false, message := msgFileNotFound }, none)
  else
    match env.readOutcome with
    | .error err => ({ success := false, message := msgRemoveErrPre ++ err }, none)
    | .ok content =>
      let lines := splitNl content
      let newContent := lines.filter fun l => !(removeMatch e l)
      let removedCount := lines.countP (removeMatch e)
      if removedCount = 0 then
        ({ success := false, message := msgNoneRemoved e }, none)
      else
        match env.writeOutcome (joinNl newContent) with
        | some err => ({ success := false, message := msgRemoveErrPre ++ err }, none)
        | none => ({ success := true, message := msgRemoved removedCount e }, some (joinNl newContent))

/-! ### Claim C9 -/

/-- Claim C9: the IoC file-patching operations are atomic on error.  When
`addEntityRegistrations` finds no `#region` marker, and when
`removeEntityRegistrations` finds no matching registration line, each returns
`success := false` without performing its write, leaving the file exactly as
read. -/
theorem C9_ioc_atomic_on_error (env : FileEnv) (e content : Chars)
    (hex : env.fileExists = true) (hread : env.readOutcome = .ok content) :
    (foundRegionB (splitNl content) = false →
      addEntityRegistrationsM env e = ({ success := false, message := msgNoRegions }, none)) ∧
    ((splitNl content).countP (removeMatch e) = 0 →
      removeEntityRegistrationsM env e =
        ({ success := false, message := msgNoneRemoved e }, none)) := by
  constructor
  · intro hnf
    unfold addEntityRegistrationsM
    rw [hex, hread]
    simp [hnf]
  · intro hnc
    unfold removeEntityRegistrationsM
    rw [hex, hread]
    simp [hnc]

def envNoRegions : FileEnv :=
  { fileExists := true
    readOutcome := .ok "class X".toList
    writeOutcome := fun _ => none }

/-- Witness for claim C9 at a file with no markers and no registrations. -/
theorem C9_witness :
    (envNoRegions.fileExists = true ∧ envNoRegions.readOutcome = .ok "class X".toList ∧
      foundRegionB (splitNl "class X".toList) = false ∧
      (splitNl "class X".toList).countP (removeMatch "User".toList) = 0) ∧
    (addEntityRegistrationsM envNoRegions "User".toList =
        ({ success := false, message := msgNoRegions }, none) ∧
     removeEntityRegistrationsM envNoRegions "User".toList =
        ({ success := false, message := msgNoneRemoved "User".toList }, none)) := by
  refine ⟨⟨rfl, rfl, by decide, by decide⟩, ?_, ?_⟩
  · exact (C9_ioc_atomic_on_error envNoRegions "User".toList "class X".toList rfl rfl).1 (by decide)
  · exact (C9_ioc_atomic_on_error envNoRegions "User".toList "class X".toList rfl rfl).2 (by decide)

/-! ### InfrastructureService result-level model
(src/services/infrastructureService.ts) -/

structure InfraResultM where
  success : Bool
  message : Chars
deriving DecidableEq

def dbCtxNotFound : Chars :=
  "ApplicationDbContext.cs não encontrado. Execute o scaffold primeiro.".toList

def dbCtxErrPre : Chars := "Erro ao atualizar ApplicationDbContext: ".toList

def msgAlreadyInCtx (e : Chars) : Chars :=
  e ++ " já está registrada no ApplicationDbContext".toList

def msgAddedCtx (e : Chars) : Chars :=
  e ++ " adicionada ao ApplicationDbContext com sucesso".toList

def msgCannotAddCtx (e : Chars) : Chars :=
  "Não foi possível adicionar ".toList ++ e ++ " ao ApplicationDbContext".toList

def baseOptionsPat : Chars := ": base(options)".toList

/-- The fallback of `addEntityToDbContext` (infrastructureService.ts lines
346-378): walk the lines; after the first line containing `: base(options)`
whose successor contains `}`, emit the successor followed by a blank line, the
region header, the DbSet line and the region footer; the `constructorFound`
flag stops later insertions.  Returns the new lines and the flag. -/
def ctorInsert (dbSetL : Chars) : List Chars → List Chars × Bool
  | [] => ([], false)
  | l :: rest =>
    if baseOptionsPat <:+: l then
      match rest with
      | ln :: rest2 =>
        if '\x7d' ∈ ln then
          (l :: ln :: ([] : Chars) :: "        #region DbSet".toList ::
            dbSetL :: "        #endregion".toList :: rest2, true)
        else
          let r := ctorInsert dbSetL rest
          (l :: r.1, r.2)
      | [] => ([l], false)
    else
      let r := ctorInsert dbSetL rest
      (l :: r.1, r.2)

/-- `InfrastructureService.addEntityToDbContext` (infrastructureService.ts
lines 298-403).  Returns the result record and the written content, `none`
when no write was performed. -/
def addEntityToDbContextM (env : FileEnv) (e : Chars) : InfraResultM × Option Chars :=
  if env.fileExists = false then
    ({ success := false, message := dbCtxNotFound }, none)
  else
    match env.readOutcome with
    | .error err => ({ success := false, message := dbCtxErrPre ++ err }, none)
    | .ok content =>
      let dbSetL := dbSetLine e
      if jsTrim dbSetL <:+: content then
        ({ success := true, message := msgAlreadyInCtx e }, none)
      else
        let lines := splitNl content
        let pass1 := (lines.map fun l =>
          if regionDbSet <:+: l then [l, dbSetL] else [l]).flatten
        let foundRegion := lines.any fun l => decide (regionDbSet <:+: l)
        if foundRegion then
          match env.writeOutcome (joinNl pass1) with
          | some err => ({ success := false, message := dbCtxErrPre ++ err }, none)
          | none => ({ success := true, message := msgAddedCtx e }, some (joinNl pass1))
        else
          let r := ctorInsert dbSetL pass1
          if r.2 then
            match env.writeOutcome (joinNl r.1) with
            | some err => ({ success := false, message := dbCtxErrPre ++ err }, none)
            | none => ({ success := true, message := msgAddedCtx e }, some (joinNl r.1))
          else
            ({ success := false, message := msgCannotAddCtx e }, none)

/-! ### RepositoryService model
(src/services/repositoryService.ts)

`generateBaseRepositories` is declared `Promise<void>`: its `catch` block
logs and **rethrows** (`throw error`, line 32), so a thrown error propagates
to the caller instead of becoming a `{success:false}` record.  The model is
therefore `Except`-valued. -/

structure RepoGenEnv where
  mkdirNeeded : Bool
  mkdirOutcome : Option Chars
  tplContract : Except Chars Chars
  writeContract : Option Chars
  tplBase : Except Chars Chars
  writeBase : Option Chars

/-- `RepositoryService.generateBaseRepositories` (repositoryService.ts lines
14-34): ensure the Contracts directory, render and write `IRepository.cs`,
render and write `IRepositoryBase.cs`; any throw is rethrown unchanged. -/
def generateBaseRepositoriesM (env : RepoGenEnv) : Except Chars Unit := do
  if env.mkdirNeeded then
    match env.mkdirOutcome with
    | some err => throw err
    | none => pure ()
  match env.tplContract with
  | .error err => throw err
  | .ok _ => pure ()
  match env.writeContract with
  | some err => throw err
  | none => pure ()
  match env.tplBase with
  | .error err => throw err
  | .ok _ => pure ()
  match env.writeBase with
  | some err => throw err
  | none => pure ()

/-! ### Claim C3 -/

def envTplThrow : RepoGenEnv :=
  { mkdirNeeded := false
    mkdirOutcome := none
    tplContract := .error "Failed to load template".toList
    writeContract := none
    tplBase := .ok "template".toList
    writeBase := none }

/-- Claim C3, counterexample: when loading the `IRepository` template throws,
`RepositoryService.generateBaseRepositories` propagates the exception to its
caller (it is `Promise<void>`-typed and rethrows in its catch block) instead
of returning a `{success:false, message}` record. -/
theorem C3_counterexample :
    generateBaseRepositoriesM envTplThrow = Except.error "Failed to load template".toList := by
  rfl

/-- Claim C3 (amended): `IoCService.addEntityRegistrations` and
`InfrastructureService.addEntityToDbContext` catch every error thrown by their
file-system primitives and return a record with `success := false` and the
catch block's message instead of propagating the exception — whether the
throw comes from `readFileSync` (first conjunct) or from `writeFileSync` at
any of the write sites: the registration write, the region-branch DbSet write
or the constructor-fallback DbSet write (second conjunct).
`RepositoryService.generateBaseRepositories` instead logs and rethrows. -/
theorem C3_amended_errors_caught (env : FileEnv) (e err content : Chars)
    (hex : env.fileExists = true) :
    (env.readOutcome = .error err →
      addEntityRegistrationsM env e =
          ({ success := false, message := msgAddErrPre ++ err }, none) ∧
      addEntityToDbContextM env e =
          ({ success := false, message := dbCtxErrPre ++ err }, none)) ∧
    (env.readOutcome = .ok content → (∀ c, env.writeOutcome c = some err) →
      (foundRegionB (splitNl content) = true →
        addEntityRegistrationsM env e =
            ({ success := false, message := msgAddErrPre ++ err }, none)) ∧
      (¬ jsTrim (dbSetLine e) <:+: content →
        (((splitNl content).any fun l => decide (regionDbSet <:+: l)) = true ∨
          (ctorInsert (dbSetLine e)
            ((splitNl content).map fun l =>
              if regionDbSet <:+: l then [l, dbSetLine e] else [l]).flatten).2 = true) →
        addEntityToDbContextM env e =
            ({ success := false, message := dbCtxErrPre ++ err }, none))) := by
  constructor
  · intro hread
    constructor
    · unfold addEntityRegistrationsM
      rw [hex, hread]
      simp
    · unfold addEntityToDbContextM
      rw [hex, hread]
      simp
  · intro hok hw
    constructor
    · intro hfr
      unfold addEntityRegistrationsM
      rw [hex, hok]
      simp [hfr, hw]
    · intro hskip hbr
      unfold addEntityToDbContextM
      rw [hex, hok]
      by_cases hfr2 : ((splitNl content).any fun l => decide (regionDbSet <:+: l)) = true
      · simp [hskip, hfr2, hw]
      · rcases hbr with hfr | hctor
        · exact absurd hfr hfr2
        · simp [hskip, hfr2, hctor, hw]

def envReadThrow : FileEnv :=
  { fileExists := true
    readOutcome := .error "EACCES".toList
    writeOutcome := fun _ => none }

def sampleAllRegions : Chars :=
  ("class C \x7b\n    #region Repositories\n    #endregion\n" ++
    "    #region Handlers\n    #endregion\n        #region DbSet\n" ++
    "        #endregion\n\x7d\n").toList

def envWriteThrow : FileEnv :=
  { fileExists := true
    readOutcome := .ok sampleAllRegions
    writeOutcome := fun _ => some "ENOSPC".toList }

set_option maxRecDepth 8000 in
/-- Witness for the amended claim C3 at a throwing `readFileSync` environment
and a throwing `writeFileSync` environment. -/
theorem C3_amended_witness :
    (envReadThrow.fileExists = true ∧
     envReadThrow.readOutcome = .error "EACCES".toList ∧
     envWriteThrow.fileExists = true ∧
     envWriteThrow.readOutcome = .ok sampleAllRegions ∧
     (∀ c, envWriteThrow.writeOutcome c = some "ENOSPC".toList) ∧
     foundRegionB (splitNl sampleAllRegions) = true ∧
     ¬ jsTrim (dbSetLine "User".toList) <:+: sampleAllRegions ∧
     ((splitNl sampleAllRegions).any fun l => decide (regionDbSet <:+: l)) = true) ∧
    (addEntityRegistrationsM envReadThrow "User".toList =
        ({ success := false, message := msgAddErrPre ++ "EACCES".toList }, none) ∧
     addEntityToDbContextM envReadThrow "User".toList =
        ({ success := false, message := dbCtxErrPre ++ "EACCES".toList }, none) ∧
     addEntityRegistrationsM envWriteThrow "User".toList =
        ({ success := false, message := msgAddErrPre ++ "ENOSPC".toList }, none) ∧
     addEntityToDbContextM envWriteThrow "User".toList =
        ({ success := false, message := dbCtxErrPre ++ "ENOSPC".toList }, none)) := by
  have h1 := (C3_amended_errors_caught envReadThrow "User".toList "EACCES".toList
    [] rfl).1 rfl
  have h2 := (C3_amended_errors_caught envWriteThrow "User".toList "ENOSPC".toList
    sampleAllRegions rfl).2 rfl (fun c => rfl)
  exact ⟨⟨rfl, rfl, rfl, rfl, fun c => rfl, by decide, by decide, by decide⟩,
    h1.1, h1.2, h2.1 (by decide), h2.2 (by decide) (Or.inl (by decide))⟩

/-! ### EntityService and CommandService models
(src/services/entityService.ts, src/services/commandService.ts)

File paths are modelled relative to the layer directory (the
`path.join(projectPath, ...)` prefixes carry no information the claims
mention); `renderOutcome` bundles template loading, compilation and rendering,
each of which can throw.  The second component of each result lists the file
paths actually written by `fs.writeFileSync`, in order. -/

structure GenResultM where
  success : Bool
  message : Chars
  errorMsg : Option Chars
deriving DecidableEq

structure EntityGenEnv where
  domainExists : Bool
  entityFileExists : Bool
  renderOutcome : Except Chars Chars
  writeOutcome : Option Chars

def entityFilePath (name : Chars) : Chars := name ++ "Entity.cs".toList

def msgDomainMissing : Chars :=
  "Projeto Domain não encontrado. Certifique-se de que é um projeto Clean Architecture.".toList

/-- `EntityService.generateEntity` (entityService.ts lines 52-103 of its
class): validate the Domain project, short-circuit when the entity file
already exists, otherwise render the template and write the file; any throw
is caught into a failure record. -/
def generateEntityM (env : EntityGenEnv) (name : Chars) : GenResultM × List Chars :=
  if env.domainExists = false then
    ({ success := false, message := msgDomainMissing,
       errorMsg := some "Domain project not found".toList }, [])
  else if env.entityFileExists then
    ({ success := false,
       message := "Entidade '".toList ++ name ++ "Entity' já existe.".toList,
       errorMsg := some "Entity already exists".toList }, [])
  else
    match env.renderOutcome with
    | .error err =>
      ({ success := false, message := "Erro ao gerar entidade".toList,
         errorMsg := some err }, [])
    | .ok _ =>
      match env.writeOutcome with
      | some err =>
        ({ success := false, message := "Erro ao gerar entidade".toList,
           errorMsg := some err }, [])
      | none =>
        ({ success := true,
           message := "Entidade '".toList ++ name ++ "Entity' criada com sucesso".toList,
           errorMsg := none }, [entityFilePath name])

structure CommandGenEnv where
  domainExists : Bool
  dirMissing : Bool
  mkdirOutcome : Option Chars
  createExists : Bool
  updateExists : Bool
  renderCreate : Except Chars Chars
  renderUpdate : Except Chars Chars
  writeCreate : Option Chars
  writeUpdate : Option Chars

def createCmdPath (name : Chars) : Chars := "Create".toList ++ name ++ "Command.cs".toList

def updateCmdPath (name : Chars) : Chars := "Update".toList ++ name ++ "Command.cs".toList

def msgCmdError : Chars := "Erro ao gerar comandos".toList

/-- `CommandService.generateCommandFile` (commandService.ts lines 52-106):
validate the Domain project, ensure the entity's command folder, note whether
either destination file already exists (`isEditing` — used only to choose the
word in the success message), render both commands and **always write both
files**, overwriting existing ones ("Sempre cria/sobrescreve ambos os
comandos"). -/
def generateCommandFileM (env : CommandGenEnv) (name : Chars) : GenResultM × List Chars :=
  if env.domainExists = false then
    ({ success := false, message := msgDomainMissing,
       errorMsg := some "Domain project not found".toList }, [])
  else
    match (if env.dirMissing then env.mkdirOutcome else none) with
    | some err => ({ success := false, message := msgCmdError, errorMsg := some err }, [])
    | none =>
      let isEditing := env.createExists || env.updateExists
      match env.renderCreate with
      | .error err => ({ success := false, message := msgCmdError, errorMsg := some err }, [])
      | .ok _ =>
        match env.renderUpdate with
        | .error err => ({ success := false, message := msgCmdError, errorMsg := some err }, [])
        | .ok _ =>
          match env.writeCreate with
          | some err => ({ success := false, message := msgCmdError, errorMsg := some err }, [])
          | none =>
            match env.writeUpdate with
            | some err =>
              ({ success := false, message := msgCmdError, errorMsg := some err },
                [createCmdPath name])
            | none =>
              ({ success := true,
                 message := "Comandos para '".toList ++ name ++
                   (if isEditing then "' atualizados com sucesso".toList
                    else "' criados com sucesso".toList),
                 errorMsg := none }, [createCmdPath name, updateCmdPath name])

/-! ### Claim C2 -/

def envCmdExisting : CommandGenEnv :=
  { domainExists := true
    dirMissing := false
    mkdirOutcome := none
    createExists := true
    updateExists := true
    renderCreate := .ok "create".toList
    renderUpdate := .ok "update".toList
    writeCreate := none
    writeUpdate := none }

/-- Claim C2, counterexample: `CommandService.generateCommandFile` does
**not** short-circuit when its destination files already exist — with both
command files present it still writes both files (and reports success with
"atualizados"), by design ("Sempre cria/sobrescreve ambos os comandos"). -/
theorem C2_counterexample :
    envCmdExisting.createExists = true ∧
    generateCommandFileM envCmdExisting "User".toList =
      ({ success := true,
         message := "Comandos para 'User' atualizados com sucesso".toList,
         errorMsg := none },
       [createCmdPath "User".toList, updateCmdPath "User".toList]) := by
  constructor
  · rfl
  · rfl

/-- Claim C2 (amended): `EntityService.generateEntity` short-circuits when the
destination entity file already exists: it returns a failure record and writes
nothing.  `CommandService.generateCommandFile` deliberately overwrites
existing command files and is excluded. -/
theorem C2_amended_entity_short_circuit (env : EntityGenEnv) (name : Chars)
    (hex : env.entityFileExists = true) :
    (generateEntityM env name).1.success = false ∧
    (generateEntityM env name).2 = [] := by
  unfold generateEntityM
  by_cases hd : env.domainExists = false
  · rw [if_pos hd]
    exact ⟨rfl, rfl⟩
  · rw [if_neg hd, if_pos hex]
    exact ⟨rfl, rfl⟩

def envEntityExisting : EntityGenEnv :=
  { domainExists := true
    entityFileExists := true
    renderOutcome := .ok "code".toList
    writeOutcome := none }

/-- Witness for the amended claim C2. -/
theorem C2_amended_witness :
    envEntityExisting.entityFileExists = true ∧
    ((generateEntityM envEntityExisting "User".toList).1.success = false ∧
     (generateEntityM envEntityExisting "User".toList).2 = []) :=
  ⟨rfl, C2_amended_entity_short_circuit envEntityExisting "User".toList rfl⟩

/-! ### TemplateManager model
(src/utils/TemplateManager.ts)

The process-wide cache is a JavaScript `Map` keyed by the template path; a
compiled template is identified by the file content it was compiled from.
`mapSet`/`mapGet` mirror `Map.set`/`Map.get` (replace the existing key or
append in insertion order).  The environment gives the outcomes of
`fs.existsSync`/`fs.readFileSync` on the primary path and the deployment
fallback path.  The third result component lists the files read from disk, so
a cache hit is a call that reads nothing. -/

abbrev TplPath := Chars

abbrev Tpl := Chars

def mapGet : List (TplPath × Tpl) → TplPath → Option Tpl
  | [], _ => none
  | kv :: rest, p => if kv.1 = p then some kv.2 else mapGet rest p

def mapSet : List (TplPath × Tpl) → TplPath → Tpl → List (TplPath × Tpl)
  | [], p, t => [(p, t)]
  | kv :: rest, p, t => if kv.1 = p then (p, t) :: rest else kv :: mapSet rest p t

structure TMState where
  cache : List (TplPath × Tpl)
deriving DecidableEq

structure TMEnv where
  fullExists : TplPath → Bool
  fullRead : TplPath → Except Chars Chars
  altExists : TplPath → Bool
  altRead : TplPath → Except Chars Chars

def tmFailMsg (p err : Chars) : Chars :=
  "Failed to load template '".toList ++ p ++ "': ".toList ++ err

/-- `TemplateManager.getTemplate` (TemplateManager.ts lines 17-52): return the
cached template if present; otherwise, when the primary path is missing but
the fallback exists, load from the fallback, else load from the primary path;
a successful load is stored in the cache; a throwing load is wrapped into a
`Failed to load template` error. -/
def getTemplateM (env : TMEnv) (s : TMState) (p : TplPath) :
    Except Chars Tpl × TMState × List TplPath :=
  match mapGet s.cache p with
  | some t => (.ok t, s, [])
  | none =>
    if env.fullExists p = false ∧ env.altExists p = true then
      match env.altRead p with
      | .ok content => (.ok content, ⟨mapSet s.cache p content⟩, [p])
      | .error err => (.error (tmFailMsg p err), s, [p])
    else
      match env.fullRead p with
      | .ok content => (.ok content, ⟨mapSet s.cache p content⟩, [p])
      | .error err => (.error (tmFailMsg p err), s, [p])

/-- The public operations of `TemplateManager`. -/
inductive TMOp where
  | get (p : TplPath)
  | clear
  | stats

/-- State transition of each operation: `getTemplate` may add a cache entry,
`clearCache` empties the cache (TemplateManager.ts lines 57-59),
`getCacheStats` is read-only. -/
def tmStep (env : TMEnv) (s : TMState) : TMOp → TMState
  | .get p => (getTemplateM env s p).2.1
  | .clear => ⟨[]⟩
  | .stats => s

theorem mapGet_cons (kv : TplPath × Tpl) (rest : List (TplPath × Tpl)) (p : TplPath) :
    mapGet (kv :: rest) p = if kv.1 = p then some kv.2 else mapGet rest p := rfl

theorem mapSet_cons (kv : TplPath × Tpl) (rest : List (TplPath × Tpl)) (p : TplPath) (t : Tpl) :
    mapSet (kv :: rest) p t = if kv.1 = p then (p, t) :: rest else kv :: mapSet rest p t := rfl

theorem mapGet_mapSet (m : List (TplPath × Tpl)) (p : TplPath) (t : Tpl) :
    mapGet (mapSet m p t) p = some t := by
  induction m with
  | nil => simp [mapGet, mapSet]
  | cons kv rest ih =>
    rw [mapSet_cons]
    by_cases h : kv.1 = p
    · rw [if_pos h, mapGet_cons]
      simp
    · rw [if_neg h, mapGet_cons, if_neg h]
      exact ih

theorem mapGet_mapSet_preserve {m : List (TplPath × Tpl)} {q : TplPath} {t : Tpl}
    (hq : mapGet m q = some t) {p : TplPath} (hp : mapGet m p = none) (tv : Tpl) :
    mapGet (mapSet m p tv) q = some t := by
  induction m with
  | nil => simp [mapGet] at hq
  | cons kv rest ih =>
    rw [mapGet_cons] at hq
    rw [mapGet_cons] at hp
    rw [mapSet_cons]
    by_cases h : kv.1 = p
    · rw [if_pos h] at hp
      simp at hp
    · rw [if_neg h] at hp
      rw [if_neg h, mapGet_cons]
      by_cases h2 : kv.1 = q
      · rw [if_pos h2] at hq ⊢
        exact hq
      · rw [if_neg h2] at hq ⊢
        exact ih hq hp

/-! ### Claim C7 -/

/-- Claim C7: the template cache is load-once and evict-never, keyed by
template path.  (1) A call that finds the path cached returns the cached
template, changes no state and reads no file.  (2) A `getTemplate` call that
returns successfully leaves the template cached under its path.  (3) No
operation other than the explicit `clearCache` removes a cache entry. -/
theorem C7_cache_load_once_evict_never (env : TMEnv) (s : TMState) (p : TplPath) :
    (∀ t, mapGet s.cache p = some t → getTemplateM env s p = (.ok t, s, [])) ∧
    (∀ t, (getTemplateM env s p).1 = .ok t →
      mapGet (getTemplateM env s p).2.1.cache p = some t) ∧
    (∀ op, op ≠ TMOp.clear → ∀ q t, mapGet s.cache q = some t →
      mapGet (tmStep env s op).cache q = some t) := by
  refine ⟨?_, ?_, ?_⟩
  · intro t ht
    unfold getTemplateM
    rw [ht]
  · intro t ht
    cases hc : mapGet s.cache p with
    | some tv =>
      have hg : getTemplateM env s p = (.ok tv, s, []) := by
        unfold getTemplateM
        rw [hc]
      rw [hg] at ht ⊢
      cases ht
      exact hc
    | none =>
      by_cases hb : env.fullExists p = false ∧ env.altExists p = true
      · cases ha : env.altRead p with
        | ok content =>
          have hg : getTemplateM env s p =
              (.ok content, ⟨mapSet s.cache p content⟩, [p]) := by
            unfold getTemplateM
            rw [hc, if_pos hb, ha]
          rw [hg] at ht ⊢
          cases ht
          exact mapGet_mapSet s.cache p t
        | error err =>
          have hg : getTemplateM env s p = (.error (tmFailMsg p err), s, [p]) := by
            unfold getTemplateM
            rw [hc, if_pos hb, ha]
          rw [hg] at ht
          cases ht
      · cases hf : env.fullRead p with
        | ok content =>
          have hg : getTemplateM env s p =
              (.ok content, ⟨mapSet s.cache p content⟩, [p]) := by
            unfold getTemplateM
            rw [hc, if_neg hb, hf]
          rw [hg] at ht ⊢
          cases ht
          exact mapGet_mapSet s.cache p t
        | error err =>
          have hg : getTemplateM env s p = (.error (tmFailMsg p err), s, [p]) := by
            unfold getTemplateM
            rw [hc, if_neg hb, hf]
          rw [hg] at ht
          cases ht
  · intro op hop q t hq
    cases op with
    | clear => exact absurd rfl hop
    | stats => exact hq
    | get pg =>
      show mapGet (getTemplateM env s pg).2.1.cache q = some t
      cases hc : mapGet s.cache pg with
      | some tv =>
        have hg : getTemplateM env s pg = (.ok tv, s, []) := by
          unfold getTemplateM
          rw [hc]
        rw [hg]
        exact hq
      | none =>
        by_cases hb : env.fullExists pg = false ∧ env.altExists pg = true
        · cases ha : env.altRead pg with
          | ok content =>
            have hg : getTemplateM env s pg =
                (.ok content, ⟨mapSet s.cache pg content⟩, [pg]) := by
              unfold getTemplateM
              rw [hc, if_pos hb, ha]
            rw [hg]
            exact mapGet_mapSet_preserve hq hc content
          | error err =>
            have hg : getTemplateM env s pg = (.error (tmFailMsg pg err), s, [pg]) := by
              unfold getTemplateM
              rw [hc, if_pos hb, ha]
            rw [hg]
            exact hq
        · cases hf : env.fullRead pg with
          | ok content =>
            have hg : getTemplateM env s pg =
                (.ok content, ⟨mapSet s.cache pg content⟩, [pg]) := by
              unfold getTemplateM
              rw [hc, if_neg hb, hf]
            rw [hg]
            exact mapGet_mapSet_preserve hq hc content
          | error err =>
            have hg : getTemplateM env s pg = (.error (tmFailMsg pg err), s, [pg]) := by
              unfold getTemplateM
              rw [hc, if_neg hb, hf]
            rw [hg]
            exact hq

def tmEnvSample : TMEnv :=
  { fullExists := fun _ => true
    fullRead := fun _ => .ok "tpl".toList
    altExists := fun _ => false
    altRead := fun _ => .error "missing".toList }

/-- Witness for claim C7 at a concrete state holding one cached template. -/
theorem C7_witness :
    (mapGet (⟨[("a.hbs".toList, "T".toList)]⟩ : TMState).cache "a.hbs".toList =
        some "T".toList) ∧
    getTemplateM tmEnvSample ⟨[("a.hbs".toList, "T".toList)]⟩ "a.hbs".toList =
      (.ok "T".toList, ⟨[("a.hbs".toList, "T".toList)]⟩, []) := by
  refine ⟨by decide, ?_⟩
  exact (C7_cache_load_once_evict_never tmEnvSample ⟨[("a.hbs".toList, "T".toList)]⟩
    "a.hbs".toList).1 "T".toList (by decide)

/-! ### ProjectService model
(src/services/projectService.ts)

Optional request fields are `Option`-valued (`none` for an absent or falsy
field).  `execOutcome` gives the outcome of `child_process.exec` for a given
command line; the second result component lists every command line actually
handed to the shell, in order.  The Clean-Architecture post-step
(`createCleanArchitectureStructure`) is summarised by the commands it would
run and a possible thrown error. -/

def isAsciiLetter (c : Char) : Bool :=
  ('a' ≤ c && c ≤ 'z') || ('A' ≤ c && c ≤ 'Z')

def isWordChar (c : Char) : Bool :=
  isAsciiLetter c || ('0' ≤ c && c ≤ '9') || c = '_'

/-- `ProjectService.isValidProjectName` (projectService.ts lines 188-191):
`/^[a-zA-Z][a-zA-Z0-9_]*$/.test(name) && name.length <= 50`. -/
def isValidProjectName (name : Chars) : Bool :=
  (match name with
   | [] => false
   | c :: rest => isAsciiLetter c && rest.all isWordChar) && name.length ≤ 50

structure ProjOptionsM where
  name : Chars
  template : Option Chars
  framework : Option Chars
  language : Option Chars
  force : Bool

/-- `ProjectService.buildCreateCommand` (projectService.ts lines 118-136). -/
def buildCreateCommand (o : ProjOptionsM) : Chars :=
  "dotnet new ".toList ++ o.template.getD "console".toList ++
    " --name \"".toList ++ o.name ++ "\"".toList ++
    (match o.framework with
     | some f => " --framework ".toList ++ f
     | none => []) ++
    (match o.language with
     | some l => if l ≠ "C#".toList then " --language ".toList ++ l else []
     | none => []) ++
    (if o.force then " --force".toList else [])

structure PCResultM where
  success : Bool
  message : Chars
deriving DecidableEq

structure ProjEnv where
  dotNetInstalled : Bool
  projectDirExists : Bool
  execOutcome : Chars → Except Chars Chars
  projectDirExistsAfter : Bool
  cleanArchCommands : List Chars
  cleanArchOutcome : Option Chars

def msgDotNetMissing : Chars :=
  ".NET não está instalado. Execute a instalação primeiro.".toList

def msgInvalidName : Chars :=
  "Nome do projeto inválido. Use apenas letras, números e underscores.".toList

def msgProjExists (name : Chars) : Chars :=
  "Projeto '".toList ++ name ++ "' já existe. Use force: true para sobrescrever.".toList

def msgProjCreated (name : Chars) : Chars :=
  "Projeto '".toList ++ name ++ "' criado com sucesso".toList

/-- `ProjectService.createProject` (projectService.ts lines 36-113): check the
SDK, validate the project name, refuse an existing directory without `force`,
then build and execute the `dotnet new` command; on a `webapi` template run
the Clean-Architecture commands.  Returns the result record and the executed
command lines. -/
def createProjectM (env : ProjEnv) (o : ProjOptionsM) : PCResultM × List Chars :=
  if env.dotNetInstalled = false then
    ({ success := false, message := msgDotNetMissing }, [])
  else if isValidProjectName o.name = false then
    ({ success := false, message := msgInvalidName }, [])
  else if env.projectDirExists && !o.force then
    ({ success := false, message := msgProjExists o.name }, [])
  else
    let cmd := buildCreateCommand o
    match env.execOutcome cmd with
    | .error _ =>
      ({ success := false, message := "Erro ao criar projeto .NET".toList }, [cmd])
    | .ok _ =>
      if env.projectDirExistsAfter then
        if o.template.getD "webapi".toList = "webapi".toList then
          match env.cleanArchOutcome with
          | some _ =>
            ({ success := false, message := "Erro ao criar projeto .NET".toList },
              cmd :: env.cleanArchCommands)
          | none =>
            ({ success := true, message := msgProjCreated o.name },
              cmd :: env.cleanArchCommands)
        else
          ({ success := true, message := msgProjCreated o.name }, [cmd])
      else
        ({ success := false, message := "Falha na criação do projeto".toList }, [cmd])

/-! ### Claim C8 -/

/-- Claim C8: for every options record whose name fails the
`^[a-zA-Z][a-zA-Z0-9_]*$` / length-50 validation, `createProject` executes no
shell command at all (so no command containing the unvalidated name), returns
`success := false`, and — whenever the SDK check passes so the validation
branch is reached — carries the invalid-name message. -/
theorem C8_invalid_name_never_executes (env : ProjEnv) (o : ProjOptionsM)
    (hinv : isValidProjectName o.name = false) :
    (createProjectM env o).2 = [] ∧
    (createProjectM env o).1.success = false ∧
    (env.dotNetInstalled = true →
      (createProjectM env o).1.message = msgInvalidName) := by
  unfold createProjectM
  by_cases hd : env.dotNetInstalled = false
  · rw [if_pos hd]
    refine ⟨rfl, rfl, ?_⟩
    intro ht
    rw [ht] at hd
    cases hd
  · rw [if_neg hd, if_pos hinv]
    exact ⟨rfl, rfl, fun _ => rfl⟩

def envProj : ProjEnv :=
  { dotNetInstalled := true
    projectDirExists := false
    execOutcome := fun _ => .ok []
    projectDirExistsAfter := true
    cleanArchCommands := []
    cleanArchOutcome := none }

def optsBadName : ProjOptionsM :=
  { name := "my project; rm -rf /".toList
    template := none
    framework := none
    language := none
    force := false }

/-- Witness for claim C8 at a shell-metacharacter name. -/
theorem C8_witness :
    isValidProjectName optsBadName.name = false ∧
    ((createProjectM envProj optsBadName).2 = [] ∧
     (createProjectM envProj optsBadName).1.success = false ∧
     (envProj.dotNetInstalled = true →
       (createProjectM envProj optsBadName).1.message = msgInvalidName)) :=
  ⟨by decide, C8_invalid_name_never_executes envProj optsBadName (by decide)⟩

/-! ### ProjectController: scaffold pipeline model
(src/controllers/projectController.ts)

Each per-entity generator call is summarised by its outcome in
`EntityStepEnv`; an `Except.error` models a rejected promise.
`entityService.generateEntity` and `commandService.generateCommandFile` catch
internally and always resolve, but the loop's `try` guards every `await`, so
command/handler outcomes are `Except`-valued; the repository wrapper
(`generateEntityRepository`, lines 836-864) has its own `try`/`catch` and
never rethrows.  Result lists mirror the `results` object's
`entities`/`commands`/`handlers`/`repositories` arrays. -/

structure EntityDefM where
  name : Chars
  genCommands : Bool
deriving DecidableEq

structure EntityEntryM where
  className : Chars
  success : Bool
  errorMsg : Option Chars
deriving DecidableEq

structure SubEntryM where
  entityName : Chars
  success : Bool
deriving DecidableEq

structure ResultsM where
  entitiesR : List EntityEntryM
  commandsR : List SubEntryM
  handlersR : List SubEntryM
  reposR : List SubEntryM
deriving DecidableEq

def emptyResults : ResultsM := ⟨[], [], [], []⟩

structure EntityStepEnv where
  entityResult : GenResultM
  commandOutcome : Except Chars GenResultM
  handlerOutcome : Except Chars GenResultM
  repoOutcome : Except Chars Unit

/-- `generateSingleEntity` (lines 749-768): always pushes an entity entry. -/
def pushEntity (res : ResultsM) (ed : EntityDefM) (r : GenResultM) : ResultsM :=
  { res with entitiesR := res.entitiesR ++
      [{ className := ed.name, success := r.success, errorMsg := none }] }

/-- `addEntityError` (lines 869-875): pushes a failure entry for the entity. -/
def addEntityErrorM (res : ResultsM) (ed : EntityDefM) (err : Chars) : ResultsM :=
  { res with entitiesR := res.entitiesR ++
      [{ className := ed.name, success := false, errorMsg := some err }] }

def pushCommand (res : ResultsM) (ed : EntityDefM) (ok : Bool) : ResultsM :=
  { res with commandsR := res.commandsR ++ [{ entityName := ed.name, success := ok }] }

def pushHandler (res : ResultsM) (ed : EntityDefM) (ok : Bool) : ResultsM :=
  { res with handlersR := res.handlersR ++ [{ entityName := ed.name, success := ok }] }

def pushRepo (res : ResultsM) (ed : EntityDefM) (ok : Bool) : ResultsM :=
  { res with reposR := res.reposR ++ [{ entityName := ed.name, success := ok }] }

/-- One iteration of the per-entity loop of
`generateEntitiesAndCompleteBoilerplate` (lines 370-411): generate the entity
(always recorded), and — when `generateCommands !== false` and the entity
entry just pushed is successful — generate commands, handlers and the
repository interface.  A rejection of the command or handler step is caught
by the surrounding `try` and recorded via `addEntityError`; a repository
failure is caught by the repository wrapper's own `catch` and recorded as a
failed repository entry. -/
def processEntity (env : EntityDefM → EntityStepEnv) (res : ResultsM)
    (ed : EntityDefM) : ResultsM :=
  let s := env ed
  let res1 := pushEntity res ed s.entityResult
  if ed.genCommands && s.entityResult.success then
    match s.commandOutcome with
    | .error err => addEntityErrorM res1 ed err
    | .ok cr =>
      let res2 := pushCommand res1 ed cr.success
      match s.handlerOutcome with
      | .error err => addEntityErrorM res2 ed err
      | .ok hr =>
        let res3 := pushHandler res2 ed hr.success
        match s.repoOutcome with
        | .error _ => pushRepo res3 ed false
        | .ok _ => pushRepo res3 ed true
  else res1

/-- `ProjectController.generateEntitiesAndCompleteBoilerplate`
(lines 370-411). -/
def generateEntitiesLoop (env : EntityDefM → EntityStepEnv)
    (entities : List EntityDefM) (res : ResultsM) : ResultsM :=
  entities.foldl (processEntity env) res

/-- The error, if any, that escapes the per-entity try block for this entity:
a rejected command or handler generation, reached only when boilerplate
generation runs at all. -/
def entityThrow (s : EntityStepEnv) (ed : EntityDefM) : Option Chars :=
  if ed.genCommands && s.entityResult.success then
    match s.commandOutcome with
    | .error err => some err
    | .ok _ =>
      match s.handlerOutcome with
      | .error err => some err
      | .ok _ => none
  else none

def repoFlag : Except Chars Unit → Bool
  | .ok _ => true
  | .error _ => false

theorem processEntity_mono (env : EntityDefM → EntityStepEnv) (res : ResultsM)
    (ed : EntityDefM) :
    (∀ x ∈ res.entitiesR, x ∈ (processEntity env res ed).entitiesR) ∧
    (∀ x ∈ res.commandsR, x ∈ (processEntity env res ed).commandsR) ∧
    (∀ x ∈ res.handlersR, x ∈ (processEntity env res ed).handlersR) ∧
    (∀ x ∈ res.reposR, x ∈ (processEntity env res ed).reposR) := by
  by_cases hg : (ed.genCommands && (env ed).entityResult.success) = true
  · cases hc : (env ed).commandOutcome with
    | error err =>
      have hpe : processEntity env res ed =
          addEntityErrorM (pushEntity res ed (env ed).entityResult) ed err := by
        simp [processEntity, hg, hc]
      rw [hpe]
      simp only [addEntityErrorM, pushEntity]
      refine ⟨?_, ?_, ?_, ?_⟩ <;> intro x hx <;> simp [hx]
    | ok cr =>
      cases hh : (env ed).handlerOutcome with
      | error err =>
        have hpe : processEntity env res ed =
            addEntityErrorM (pushCommand (pushEntity res ed (env ed).entityResult)
              ed cr.success) ed err := by
          simp [processEntity, hg, hc, hh]
        rw [hpe]
        simp only [addEntityErrorM, pushCommand, pushEntity]
        refine ⟨?_, ?_, ?_, ?_⟩ <;> intro x hx <;> simp [hx]
      | ok hr =>
        cases hrep : (env ed).repoOutcome with
        | error err =>
          have hpe : processEntity env res ed =
              pushRepo (pushHandler (pushCommand (pushEntity res ed
                (env ed).entityResult) ed cr.success) ed hr.success) ed false := by
            simp [processEntity, hg, hc, hh, hrep]
          rw [hpe]
          simp only [pushRepo, pushHandler, pushCommand, pushEntity]
          refine ⟨?_, ?_, ?_, ?_⟩ <;> intro x hx <;> simp [hx]
        | ok u =>
          have hpe : processEntity env res ed =
              pushRepo (pushHandler (pushCommand (pushEntity res ed
                (env ed).entityResult) ed cr.success) ed hr.success) ed true := by
            simp [processEntity, hg, hc, hh, hrep]
          rw [hpe]
          simp only [pushRepo, pushHandler, pushCommand, pushEntity]
          refine ⟨?_, ?_, ?_, ?_⟩ <;> intro x hx <;> simp [hx]
  · have hpe : processEntity env res ed = pushEntity res ed (env ed).entityResult := by
      simp [processEntity, hg]
    rw [hpe]
    simp only [pushEntity]
    refine ⟨?_, ?_, ?_, ?_⟩ <;> intro x hx <;> simp [hx]

theorem processEntity_spec (env : EntityDefM → EntityStepEnv) (res : ResultsM)
    (ed : EntityDefM) :
    (({ className := ed.name, success := (env ed).entityResult.success,
        errorMsg := none } : EntityEntryM) ∈ (processEntity env res ed).entitiesR) ∧
    (∀ err, entityThrow (env ed) ed = some err →
      ({ className := ed.name, success := false, errorMsg := some err } :
        EntityEntryM) ∈ (processEntity env res ed).entitiesR) ∧
    (∀ cr hr, (ed.genCommands && (env ed).entityResult.success) = true →
      (env ed).commandOutcome = .ok cr → (env ed).handlerOutcome = .ok hr →
      ({ entityName := ed.name, success := cr.success } : SubEntryM) ∈
          (processEntity env res ed).commandsR ∧
      ({ entityName := ed.name, success := hr.success } : SubEntryM) ∈
          (processEntity env res ed).handlersR ∧
      ({ entityName := ed.name, success := repoFlag (env ed).repoOutcome } :
          SubEntryM) ∈ (processEntity env res ed).reposR) := by
  by_cases hg : (ed.genCommands && (env ed).entityResult.success) = true
  · cases hc : (env ed).commandOutcome with
    | error err =>
      have hpe : processEntity env res ed =
          addEntityErrorM (pushEntity res ed (env ed).entityResult) ed err := by
        simp [processEntity, hg, hc]
      rw [hpe]
      refine ⟨by simp [addEntityErrorM, pushEntity], ?_, ?_⟩
      · intro err2 hth
        unfold entityThrow at hth
        rw [if_pos hg, hc] at hth
        cases hth
        simp [addEntityErrorM, pushEntity]
      · intro cr hr _ hc2 _
        cases hc2
    | ok cr =>
      cases hh : (env ed).handlerOutcome with
      | error err =>
        have hpe : processEntity env res ed =
            addEntityErrorM (pushCommand (pushEntity res ed (env ed).entityResult)
              ed cr.success) ed err := by
          simp [processEntity, hg, hc, hh]
        rw [hpe]
        refine ⟨by simp [addEntityErrorM, pushCommand, pushEntity], ?_, ?_⟩
        · intro err2 hth
          unfold entityThrow at hth
          rw [if_pos hg, hc, hh] at hth
          cases hth
          simp [addEntityErrorM, pushCommand, pushEntity]
        · intro cr2 hr _ _ hh2
          cases hh2
      | ok hr =>
        cases hrep : (env ed).repoOutcome with
        | error err =>
          have hpe : processEntity env res ed =
              pushRepo (pushHandler (pushCommand (pushEntity res ed
                (env ed).entityResult) ed cr.success) ed hr.success) ed false := by
            simp [processEntity, hg, hc, hh, hrep]
          rw [hpe]
          refine ⟨by simp [pushRepo, pushHandler, pushCommand, pushEntity], ?_, ?_⟩
          · intro err2 hth
            unfold entityThrow at hth
            rw [if_pos hg, hc, hh] at hth
            cases hth
          · intro cr2 hr2 _ hc2 hh2
            cases hc2
            cases hh2
            refine ⟨by simp [pushRepo, pushHandler, pushCommand, pushEntity], ?_, ?_⟩
            · simp [pushRepo, pushHandler, pushCommand, pushEntity]
            · simp [pushRepo, pushHandler, pushCommand, pushEntity, repoFlag]
        | ok u =>
          have hpe : processEntity env res ed =
              pushRepo (pushHandler (pushCommand (pushEntity res ed
                (env ed).entityResult) ed cr.success) ed hr.success) ed true := by
            simp [processEntity, hg, hc, hh, hrep]
          rw [hpe]
          refine ⟨by simp [pushRepo, pushHandler, pushCommand, pushEntity], ?_, ?_⟩
          · intro err2 hth
            unfold entityThrow at hth
            rw [if_pos hg, hc, hh] at hth
            cases hth
          · intro cr2 hr2 _ hc2 hh2
            cases hc2
            cases hh2
            refine ⟨by simp [pushRepo, pushHandler, pushCommand, pushEntity], ?_, ?_⟩
            · simp [pushRepo, pushHandler, pushCommand, pushEntity]
            · simp [pushRepo, pushHandler, pushCommand, pushEntity, repoFlag]
  · have hpe : processEntity env res ed = pushEntity res ed (env ed).entityResult := by
      simp [processEntity, hg]
    rw [hpe]
    refine ⟨by simp [pushEntity], ?_, ?_⟩
    · intro err hth
      unfold entityThrow at hth
      rw [if_neg hg] at hth
      cases hth
    · intro cr hr hg2 _ _
      exact absurd hg2 hg

theorem loop_mono (env : EntityDefM → EntityStepEnv) (entities : List EntityDefM)
    (res : ResultsM) :
    (∀ x ∈ res.entitiesR, x ∈ (generateEntitiesLoop env entities res).entitiesR) ∧
    (∀ x ∈ res.commandsR, x ∈ (generateEntitiesLoop env entities res).commandsR) ∧
    (∀ x ∈ res.handlersR, x ∈ (generateEntitiesLoop env entities res).handlersR) ∧
    (∀ x ∈ res.reposR, x ∈ (generateEntitiesLoop env entities res).reposR) := by
  induction entities generalizing res with
  | nil => exact ⟨fun x hx => hx, fun x hx => hx, fun x hx => hx, fun x hx => hx⟩
  | cons ed t ih =>
    have hstep := processEntity_mono env res ed
    have hrest := ih (processEntity env res ed)
    exact ⟨fun x hx => hrest.1 x (hstep.1 x hx),
      fun x hx => hrest.2.1 x (hstep.2.1 x hx),
      fun x hx => hrest.2.2.1 x (hstep.2.2.1 x hx),
      fun x hx => hrest.2.2.2 x (hstep.2.2.2 x hx)⟩

theorem loop_spec (env : EntityDefM → EntityStepEnv) (entities : List EntityDefM)
    (res : ResultsM) :
    ∀ ed ∈ entities,
      (∃ en ∈ (generateEntitiesLoop env entities res).entitiesR,
        en.className = ed.name) ∧
      (∀ err, entityThrow (env ed) ed = some err →
        ({ className := ed.name, success := false, errorMsg := some err } :
          EntityEntryM) ∈ (generateEntitiesLoop env entities res).entitiesR) ∧
      (∀ cr hr, (ed.genCommands && (env ed).entityResult.success) = true →
        (env ed).commandOutcome = .ok cr → (env ed).handlerOutcome = .ok hr →
        ({ entityName := ed.name, success := cr.success } : SubEntryM) ∈
            (generateEntitiesLoop env entities res).commandsR ∧
        ({ entityName := ed.name, success := hr.success } : SubEntryM) ∈
            (generateEntitiesLoop env entities res).handlersR ∧
        ({ entityName := ed.name, success := repoFlag (env ed).repoOutcome } :
            SubEntryM) ∈ (generateEntitiesLoop env entities res).reposR) := by
  induction entities generalizing res with
  | nil => intro ed hed; cases hed
  | cons x t ih =>
    intro ed hed
    have hfold : generateEntitiesLoop env (x :: t) res =
        generateEntitiesLoop env t (processEntity env res x) := rfl
    rcases List.mem_cons.mp hed with rfl | hed2
    · have hspec := processEntity_spec env res ed
      have hmono := loop_mono env t (processEntity env res ed)
      rw [hfold]
      refine ⟨⟨_, hmono.1 _ hspec.1, rfl⟩, ?_, ?_⟩
      · intro err hth
        exact hmono.1 _ (hspec.2.1 err hth)
      · intro cr hr hg hc hh
        obtain ⟨h1, h2, h3⟩ := hspec.2.2 cr hr hg hc hh
        exact ⟨hmono.2.1 _ h1, hmono.2.2.1 _ h2, hmono.2.2.2 _ h3⟩
    · rw [hfold]
      exact ih (processEntity env res x) ed hed2

/-! ### Claim C4 -/

/-- Claim C4: a failure while generating one entity does not halt the rest.
For every environment and entity list: (1) every input entity ends up with an
entry in the aggregate `entities` list — including the entities after a
failing one; (2) when an entity's boilerplate step throws, the catch records a
per-entity failure entry carrying the error; (3) for an entity whose command
and handler steps resolve, the aggregate records per-sub-resource entries in
`commands`, `handlers` and `repositories`, the latter `false` exactly when
the repository step threw. -/
theorem C4_failure_isolation (env : EntityDefM → EntityStepEnv)
    (entities : List EntityDefM) :
    ∀ ed ∈ entities,
      (∃ en ∈ (generateEntitiesLoop env entities emptyResults).entitiesR,
        en.className = ed.name) ∧
      (∀ err, entityThrow (env ed) ed = some err →
        ({ className := ed.name, success := false, errorMsg := some err } :
          EntityEntryM) ∈
          (generateEntitiesLoop env entities emptyResults).entitiesR) ∧
      (∀ cr hr, (ed.genCommands && (env ed).entityResult.success) = true →
        (env ed).commandOutcome = .ok cr → (env ed).handlerOutcome = .ok hr →
        ({ entityName := ed.name, success := cr.success } : SubEntryM) ∈
            (generateEntitiesLoop env entities emptyResults).commandsR ∧
        ({ entityName := ed.name, success := hr.success } : SubEntryM) ∈
            (generateEntitiesLoop env entities emptyResults).handlersR ∧
        ({ entityName := ed.name, success := repoFlag (env ed).repoOutcome } :
            SubEntryM) ∈
            (generateEntitiesLoop env entities emptyResults).reposR) :=
  loop_spec env entities emptyResults

def edA : EntityDefM := { name := "Alpha".toList, genCommands := true }

def edB : EntityDefM := { name := "Beta".toList, genCommands := true }

def okGen : GenResultM := { success := true, message := [], errorMsg := none }

/-- A sample pipeline environment in which `Alpha`'s handler generation
throws while `Beta` succeeds throughout. -/
def envPipe : EntityDefM → EntityStepEnv := fun ed =>
  if ed.name = "Alpha".toList then
    { entityResult := okGen
      commandOutcome := .ok okGen
      handlerOutcome := .error "disk full".toList
      repoOutcome := .ok () }
  else
    { entityResult := okGen
      commandOutcome := .ok okGen
      handlerOutcome := .ok okGen
      repoOutcome := .ok () }

/-- Witness for claim C4: with `Alpha` throwing at the handler step, the
aggregate still contains an entry for the later entity `Beta`, and `Alpha`
gets its recorded failure entry. -/
theorem C4_witness :
    (edA ∈ [edA, edB] ∧ edB ∈ [edA, edB] ∧
      entityThrow (envPipe edA) edA = some "disk full".toList) ∧
    (({ className := edA.name, success := false,
        errorMsg := some "disk full".toList } : EntityEntryM) ∈
      (generateEntitiesLoop envPipe [edA, edB] emptyResults).entitiesR ∧
     ∃ en ∈ (generateEntitiesLoop envPipe [edA, edB] emptyResults).entitiesR,
       en.className = edB.name) :=
  ⟨⟨by decide, by decide, by decide⟩,
    (C4_failure_isolation envPipe [edA, edB] edA (by decide)).2.1
      "disk full".toList (by decide),
    (C4_failure_isolation envPipe [edA, edB] edB (by decide)).1⟩

/-! ### ProjectController: request validation and the scaffold endpoints
(src/controllers/projectController.ts, src/utils/responseUtils.ts)

A request body is modelled by an optional `projectOptions` object (whose
`name` may be absent or empty — both falsy in `!projectOptions?.name`) and an
`entities` field that is absent, a non-array value, or an array.  A response
is its final HTTP status plus the headers set on it; `ResponseUtils.badRequest`
delegates to `ResponseUtils.error` with status 400 (responseUtils.ts lines
20-42).  The second component of each handler's result records whether
`createProjectStep` (and hence `projectService.createProject`) was invoked. -/

structure ProjOptsReq where
  name : Option Chars

inductive EntitiesField where
  | missing
  | notArray
  | arr (es : List EntityDefM)

/-- `!projectOptions?.name`. -/
def nameFalsy : Option ProjOptsReq → Bool
  | none => true
  | some o =>
    match o.name with
    | none => true
    | some [] => true
    | some (_ :: _) => false

def msgNameRequired : Chars := "Nome do projeto é obrigatório".toList

def msgEntitiesRequired : Chars := "Lista de entidades é obrigatória".toList

/-- `ProjectController.validateScaffoldRequest` (lines 283-293). -/
def validateScaffoldRequestM (po : Option ProjOptsReq) (ef : EntitiesField) :
    Option Chars :=
  if nameFalsy po then some msgNameRequired
  else
    match ef with
    | .missing => some msgEntitiesRequired
    | .notArray => some msgEntitiesRequired
    | .arr [] => some msgEntitiesRequired
    | .arr (_ :: _) => none

structure RespM where
  status : Nat
  headers : List (Chars × Chars)
deriving DecidableEq

structure ScaffoldEnv where
  tempDirOutcome : Option Chars
  createSuccess : Bool
  createMessage : Chars
  stepsOutcome : Option Chars
  archiveOutcome : Option Chars
  validationOutcome : Option Chars

def reqName (po : Option ProjOptsReq) : Chars :=
  ((po.map (·.name)).join).getD []

/-- `ProjectController.scaffoldProject` (lines 216-278): validate, create the
project, run the generation steps (each guards its own errors; the outer
`catch` turns a stray throw into a 500), answer 201 on success. -/
def scaffoldProjectM (env : ScaffoldEnv) (po : Option ProjOptsReq)
    (ef : EntitiesField) : RespM × Bool :=
  match validateScaffoldRequestM po ef with
  | some _ => ({ status := 400, headers := [] }, false)
  | none =>
    if env.createSuccess = false then
      ({ status := 400, headers := [] }, true)
    else
      match env.stepsOutcome with
      | some _ => ({ status := 500, headers := [] }, true)
      | none => ({ status := 201, headers := [] }, true)

def zipHeaders (nm : Chars) : List (Chars × Chars) :=
  [("Content-Type".toList, "application/zip".toList),
   ("Content-Disposition".toList,
     "attachment; filename=\"".toList ++ nm ++ ".zip\"".toList)]

/-- `ProjectController.scaffoldProjectDownload` (lines 111-210): validate,
prepare the temp directory, create the project there, run the generation
steps, set the zip download headers, stream the archive; a throw after the
headers are set is answered 500 with the headers already on the response. -/
def scaffoldProjectDownloadM (env : ScaffoldEnv) (po : Option ProjOptsReq)
    (ef : EntitiesField) : RespM × Bool :=
  match validateScaffoldRequestM po ef with
  | some _ => ({ status := 400, headers := [] }, false)
  | none =>
    match env.tempDirOutcome with
    | some _ => ({ status := 500, headers := [] }, false)
    | none =>
      if env.createSuccess = false then
        ({ status := 400, headers := [] }, true)
      else
        match env.archiveOutcome with
        | some _ => ({ status := 500, headers := zipHeaders (reqName po) }, true)
        | none => ({ status := 200, headers := zipHeaders (reqName po) }, true)

/-- `ProjectController.validateScaffold` (lines 85-105): validate the payload,
then run `performScaffoldValidation`, which never calls
`projectService.createProject`. -/
def validateScaffoldM (env : ScaffoldEnv) (po : Option ProjOptsReq)
    (ef : EntitiesField) : RespM × Bool :=
  match validateScaffoldRequestM po ef with
  | some _ => ({ status := 400, headers := [] }, false)
  | none =>
    match env.validationOutcome with
    | some _ => ({ status := 500, headers := [] }, false)
    | none => ({ status := 200, headers := [] }, false)

/-! ### Claim C5 -/

/-- Claim C5: for every scaffold request whose payload is invalid — project
name missing (or empty), or the entities field missing, not an array, or an
empty array — each of the three scaffold endpoints responds with HTTP 400 and
never invokes the project-creation step. -/
theorem C5_invalid_payload_400 (env : ScaffoldEnv) (po : Option ProjOptsReq)
    (ef : EntitiesField)
    (hinv : nameFalsy po = true ∨ ef = .missing ∨ ef = .notArray ∨ ef = .arr []) :
    scaffoldProjectM env po ef = ({ status := 400, headers := [] }, false) ∧
    scaffoldProjectDownloadM env po ef = ({ status := 400, headers := [] }, false) ∧
    validateScaffoldM env po ef = ({ status := 400, headers := [] }, false) := by
  have hv : ∃ msg, validateScaffoldRequestM po ef = some msg := by
    unfold validateScaffoldRequestM
    rcases hinv with h | h | h | h
    · exact ⟨msgNameRequired, by rw [if_pos h]⟩
    · by_cases hn : nameFalsy po = true
      · exact ⟨msgNameRequired, by rw [if_pos hn]⟩
      · exact ⟨msgEntitiesRequired, by rw [if_neg hn, h]⟩
    · by_cases hn : nameFalsy po = true
      · exact ⟨msgNameRequired, by rw [if_pos hn]⟩
      · exact ⟨msgEntitiesRequired, by rw [if_neg hn, h]⟩
    · by_cases hn : nameFalsy po = true
      · exact ⟨msgNameRequired, by rw [if_pos hn]⟩
      · exact ⟨msgEntitiesRequired, by rw [if_neg hn, h]⟩
  obtain ⟨msg, hmsg⟩ := hv
  refine ⟨?_, ?_, ?_⟩
  · unfold scaffoldProjectM
    rw [hmsg]
  · unfold scaffoldProjectDownloadM
    rw [hmsg]
  · unfold validateScaffoldM
    rw [hmsg]

def envScaffold : ScaffoldEnv :=
  { tempDirOutcome := none
    createSuccess := true
    createMessage := []
    stepsOutcome := none
    archiveOutcome := none
    validationOutcome := none }

/-- Witness for claim C5 at a request with an empty entities array. -/
theorem C5_witness :
    (nameFalsy (some ⟨some "Shop".toList⟩) = true ∨
      EntitiesField.arr [] = .missing ∨ EntitiesField.arr [] = .notArray ∨
      EntitiesField.arr ([] : List EntityDefM) = .arr []) ∧
    (scaffoldProjectM envScaffold (some ⟨some "Shop".toList⟩) (.arr []) =
        ({ status := 400, headers := [] }, false) ∧
     scaffoldProjectDownloadM envScaffold (some ⟨some "Shop".toList⟩) (.arr []) =
        ({ status := 400, headers := [] }, false) ∧
     validateScaffoldM envScaffold (some ⟨some "Shop".toList⟩) (.arr []) =
        ({ status := 400, headers := [] }, false)) :=
  ⟨Or.inr (Or.inr (Or.inr rfl)),
    C5_invalid_payload_400 envScaffold (some ⟨some "Shop".toList⟩) (.arr [])
      (Or.inr (Or.inr (Or.inr rfl)))⟩

/-! ### Claim C6 -/

/-- Claim C6: every scaffold-download request that passes validation and whose
project-creation step succeeds gets a response carrying
`Content-Type: application/zip` and a `Content-Disposition: attachment`
header whose filename is the project name with a `.zip` extension. -/
theorem C6_download_headers (env : ScaffoldEnv) (po : Option ProjOptsReq)
    (ef : EntitiesField) (hval : validateScaffoldRequestM po ef = none)
    (htmp : env.tempDirOutcome = none) (hcr : env.createSuccess = true) :
    (scaffoldProjectDownloadM env po ef).1.headers =
      [("Content-Type".toList, "application/zip".toList),
       ("Content-Disposition".toList,
         "attachment; filename=\"".toList ++ reqName po ++ ".zip\"".toList)] := by
  unfold scaffoldProjectDownloadM
  rw [hval, htmp]
  have hcr2 : env.createSuccess = false → False := by
    intro h
    rw [hcr] at h
    cases h
  rw [if_neg fun h => hcr2 h]
  cases env.archiveOutcome with
  | none => rfl
  | some err => rfl

/-- Witness for claim C6 at a concrete valid request for project `Shop`. -/
theorem C6_witness :
    (validateScaffoldRequestM (some ⟨some "Shop".toList⟩) (.arr [edA]) = none ∧
      envScaffold.tempDirOutcome = none ∧ envScaffold.createSuccess = true) ∧
    (scaffoldProjectDownloadM envScaffold (some ⟨some "Shop".toList⟩)
        (.arr [edA])).1.headers =
      [("Content-Type".toList, "application/zip".toList),
       ("Content-Disposition".toList,
         "attachment; filename=\"".toList ++ reqName (some ⟨some "Shop".toList⟩) ++
           ".zip\"".toList)] :=
  ⟨⟨rfl, rfl, rfl⟩,
    C6_download_headers envScaffold (some ⟨some "Shop".toList⟩) (.arr [edA])
      rfl rfl rfl⟩
